import Mathlib

/-!
Verification development for the arcana-react offline-first data layer.

The TypeScript sources are shallowly embedded as pure Lean functions:

* JavaScript `Map` objects become insertion-ordered association lists;
* the doubly linked list of the LRU cache becomes a recency-ordered list
  (head = most recently used), since the prev/next pointers are only an O(1)
  implementation of move-to-front / drop-tail on that order;
* `Date.now()` becomes an explicit `now : Nat` argument (milliseconds),
  one sample per operation;
* asynchronous operations become state-passing functions; rejected promises
  become `Except` values;
* the IndexedDB tables become lists held in the state record.

Each cache operation keeps the field-by-field behaviour of the source,
including statistics counters and lazy deletion of expired entries.
-/

namespace Arcana

/-- Lookup in an insertion-ordered association list (JS Map get). -/
def findVal {β : Type} (k : String) : List (String × β) → Option β
  | [] => none
  | (k', v) :: rest => if k' = k then some v else findVal k rest

/-- JS Map set: replace in place when the key exists, else append
(JS Maps keep the original insertion position on overwrite). -/
def putAssoc {β : Type} (k : String) (v : β) : List (String × β) → List (String × β)
  | [] => [(k, v)]
  | (k', v') :: rest => if k' = k then (k, v) :: rest else (k', v') :: putAssoc k v rest

/-- JS Map delete: remove the entry with the given key. -/
def eraseKey {β : Type} (k : String) : List (String × β) → List (String × β)
  | [] => []
  | (k', v) :: rest => if k' = k then rest else (k', v) :: eraseKey k rest

/-- Update the entry at a key in place, keeping its position. -/
def updAssoc {β : Type} (k : String) (f : β → β) : List (String × β) → List (String × β)
  | [] => []
  | (k', v) :: rest => if k' = k then (k', f v) :: rest else (k', v) :: updAssoc k f rest

/-- Math.ceil(a / b) for the nonnegative integers produced by pagination. -/
def ceilDiv (a b : Nat) : Nat := (a + b - 1) / b

/-- JS String.prototype.includes for a non-empty needle, via splitOn:
the needle occurs in the haystack iff splitting on it yields more than
one part. -/
def strIncludes (s sub : String) : Bool := (s.splitOn sub).length > 1

-- =============================================================================
-- Memory Cache Service (src/app/data/storage/memoryCacheService.ts)
-- =============================================================================

/-- Cache entry with metadata (memoryCacheService CacheEntry). -/
structure MemEntry (α : Type) where
  value : α
  timestamp : Nat
  accessCount : Nat
  lastAccessed : Nat
deriving Repr, DecidableEq

/-- State of MemoryCacheService: the Map (insertion order), maxSize and the
hit/miss counters. -/
structure MemCache (α : Type) where
  entries : List (String × MemEntry α)
  maxSize : Nat
  hits : Nat
  misses : Nat
deriving Repr, DecidableEq

def MemCache.empty (α : Type) (maxSize : Nat) : MemCache α :=
  { entries := [], maxSize, hits := 0, misses := 0 }

/-- MemoryCacheService.get: updates access metadata and the hit/miss
counters. -/
def memGet {α : Type} (now : Nat) (k : String) (c : MemCache α) :
    Option α × MemCache α :=
  match findVal k c.entries with
  | none => (none, { c with misses := c.misses + 1 })
  | some e =>
      (some e.value,
        { c with
            entries := updAssoc k
              (fun e => { e with accessCount := e.accessCount + 1, lastAccessed := now })
              c.entries,
            hits := c.hits + 1 })

/-- Eviction score: `entry.lastAccessed - entry.accessCount * 1000`
(a JS number that can go negative, hence Int). -/
def evictScore {α : Type} (e : MemEntry α) : Int :=
  (e.lastAccessed : Int) - (e.accessCount : Int) * 1000

/-- The scan of evictLeastUsed: keep the first key with the strictly
smallest score, in Map iteration (insertion) order. -/
def evictKeyAux {α : Type} (best : Option (String × Int)) :
    List (String × MemEntry α) → Option (String × Int)
  | [] => best
  | (k, e) :: rest =>
      let s := evictScore e
      match best with
      | none => evictKeyAux (some (k, s)) rest
      | some (bk, bs) =>
          if s < bs then evictKeyAux (some (k, s)) rest
          else evictKeyAux (some (bk, bs)) rest

/-- MemoryCacheService.evictLeastUsed. The final `if (lruKey)` is a JS
truthiness test, so the empty-string key is never deleted. -/
def memEvict {α : Type} (c : MemCache α) : MemCache α :=
  match evictKeyAux none c.entries with
  | none => c
  | some (k, _) => if k = "" then c else { c with entries := eraseKey k c.entries }

/-- MemoryCacheService.set: evict when at capacity and the key is new,
then insert an entry with fresh metadata. -/
def memSet {α : Type} (now : Nat) (k : String) (v : α) (c : MemCache α) : MemCache α :=
  let c :=
    if c.maxSize ≤ c.entries.length && (findVal k c.entries).isNone then memEvict c else c
  let e : MemEntry α := { value := v, timestamp := now, accessCount := 1, lastAccessed := now }
  { c with entries := putAssoc k e c.entries }

/-- MemoryCacheService.delete. -/
def memDelete {α : Type} (k : String) (c : MemCache α) : Bool × MemCache α :=
  match findVal k c.entries with
  | none => (false, c)
  | some _ => (true, { c with entries := eraseKey k c.entries })

/-- MemoryCacheService.clearByPrefix. -/
def memClearPre {α : Type} (p : String) (c : MemCache α) : MemCache α :=
  { c with entries := c.entries.filter (fun kv => !kv.1.startsWith p) }

-- =============================================================================
-- LRU Cache Service (src/app/data/storage/lruCacheService.ts)
-- =============================================================================

/-- LRUCacheEntry: value with absolute expiry. -/
structure LRUEntry (α : Type) where
  value : α
  expiresAt : Nat
  createdAt : Nat
deriving Repr, DecidableEq

/-- A node of the recency list. `lastAccessed` is bookkeeping for the
access-order trace the capacity claim talks about: it is not a field of
the source node, it merely records the time of the operation that last
touched the node, and no operation of the model reads it. -/
structure LRUNodeM (α : Type) where
  key : String
  entry : LRUEntry α
  lastAccessed : Nat
deriving Repr, DecidableEq

/-- State of LRUCacheService. `list` is the doubly linked list read from
head (most recently used) to tail (least recently used). -/
structure LRUCache (α : Type) where
  list : List (LRUNodeM α)
  maxSize : Nat
  defaultTTL : Nat
  hits : Nat
  misses : Nat
  evictions : Nat
deriving Repr, DecidableEq

def LRUCache.empty (α : Type) (maxSize defaultTTL : Nat) : LRUCache α :=
  { list := [], maxSize, defaultTTL, hits := 0, misses := 0, evictions := 0 }

/-- Lookup of the companion map (`this.cache.get(key)`). -/
def lruFind {α : Type} (k : String) (l : List (LRUNodeM α)) : Option (LRUNodeM α) :=
  l.find? (fun n => n.key == k)

/-- removeNode + map delete for one key. -/
def eraseNode {α : Type} (k : String) : List (LRUNodeM α) → List (LRUNodeM α)
  | [] => []
  | n :: rest => if n.key = k then rest else n :: eraseNode k rest

/-- LRUCacheService.get: a present but expired node is deleted and counted
as a miss; a live node moves to the front. -/
def lruGet {α : Type} (now : Nat) (k : String) (c : LRUCache α) :
    Option α × LRUCache α :=
  match lruFind k c.list with
  | none => (none, { c with misses := c.misses + 1 })
  | some n =>
      if n.entry.expiresAt < now then
        (none, { c with list := eraseNode k c.list, misses := c.misses + 1 })
      else
        (some n.entry.value,
          { c with list := { n with lastAccessed := now } :: eraseNode k c.list,
                   hits := c.hits + 1 })

/-- LRUCacheService.evictLRU: drop the tail node. -/
def lruEvict {α : Type} (c : LRUCache α) : LRUCache α :=
  match c.list.getLast? with
  | none => c
  | some _ => { c with list := c.list.dropLast, evictions := c.evictions + 1 }

/-- LRUCacheService.set: update-in-place-and-move-to-front for an existing
key; otherwise evict the tail when at capacity and insert at the front.
`ttl = none` means the caller omitted the TTL, so defaultTTL applies. -/
def lruSet {α : Type} (now : Nat) (k : String) (v : α) (ttl : Option Nat)
    (c : LRUCache α) : LRUCache α :=
  let entry : LRUEntry α :=
    { value := v, expiresAt := now + ttl.getD c.defaultTTL, createdAt := now }
  match lruFind k c.list with
  | some _ =>
      { c with list := { key := k, entry, lastAccessed := now } :: eraseNode k c.list }
  | none =>
      let c := if c.maxSize ≤ c.list.length then lruEvict c else c
      { c with list := { key := k, entry, lastAccessed := now } :: c.list }

/-- LRUCacheService.has: lazy deletion of an expired node. -/
def lruHas {α : Type} (now : Nat) (k : String) (c : LRUCache α) :
    Bool × LRUCache α :=
  match lruFind k c.list with
  | none => (false, c)
  | some n =>
      if n.entry.expiresAt < now then (false, { c with list := eraseNode k c.list })
      else (true, c)

/-- LRUCacheService.delete. -/
def lruDelete {α : Type} (k : String) (c : LRUCache α) : Bool × LRUCache α :=
  match lruFind k c.list with
  | none => (false, c)
  | some _ => (true, { c with list := eraseNode k c.list })

/-- LRUCacheService.touch: refresh the expiry and move to the front. -/
def lruTouch {α : Type} (now : Nat) (k : String) (ttl : Option Nat)
    (c : LRUCache α) : Bool × LRUCache α :=
  match lruFind k c.list with
  | none => (false, c)
  | some n =>
      (true,
        { c with list :=
            { n with entry := { n.entry with expiresAt := now + ttl.getD c.defaultTTL },
                     lastAccessed := now } :: eraseNode k c.list })

/-- LRUCacheService.getTTL. -/
def lruGetTTL {α : Type} (now : Nat) (k : String) (c : LRUCache α) : Option Nat :=
  match lruFind k c.list with
  | none => none
  | some n => if now < n.entry.expiresAt then some (n.entry.expiresAt - now) else none

/-- LRUCacheService.clearByPrefix. -/
def lruClearPre {α : Type} (p : String) (c : LRUCache α) : LRUCache α :=
  { c with list := c.list.filter (fun n => !n.key.startsWith p) }

/-- The live (non-expired) nodes of the cache at a given time; entries past
their expiry are logically absent. -/
def lruLive {α : Type} (now : Nat) (c : LRUCache α) : List (LRUNodeM α) :=
  c.list.filter (fun n => !decide (n.entry.expiresAt < now))

-- =============================================================================
-- IndexedDB Service (src/app/data/storage/indexedDbService.ts)
-- =============================================================================

/-- CachedItem of the Dexie cache table. -/
structure CachedItem (α : Type) where
  key : String
  value : α
  timestamp : Nat
  expiresAt : Nat
  version : Nat
deriving Repr, DecidableEq

/-- PendingOperation.type. -/
inductive OpType where
  | opCreate
  | opUpdate
  | opDelete
deriving Repr, DecidableEq

/-- PendingOperation.status. -/
inductive OpStatus where
  | pending
  | processing
  | failed
deriving Repr, DecidableEq

/-- PendingOperation of the Dexie pendingOperations table, with the
auto-increment id materialised and the payload kept generic. -/
structure PendingOp (π : Type) where
  id : Nat
  type : OpType
  entity : String
  entityId : String
  payload : π
  timestamp : Nat
  retries : Nat
  maxRetries : Nat
  status : OpStatus
  error : Option String
deriving Repr, DecidableEq

/-- The partial updates the sync paths pass to updatePendingOperation:
only status, retries and error ever appear in those objects. -/
structure OpPatch where
  status : Option OpStatus
  retries : Option Nat
  errMsg : Option String
deriving Repr, DecidableEq

/-- Dexie Table.update: only the listed keys change. -/
def applyPatch {π : Type} (p : OpPatch) (o : PendingOp π) : PendingOp π :=
  { o with
      status := p.status.getD o.status,
      retries := p.retries.getD o.retries,
      error := match p.errMsg with | some m => some m | none => o.error }

/-- IndexedDbService.updatePendingOperation. -/
def updateOp {π : Type} (i : Nat) (p : OpPatch) (q : List (PendingOp π)) :
    List (PendingOp π) :=
  q.map (fun o => if o.id = i then applyPatch p o else o)

/-- IndexedDbService.deletePendingOperation. -/
def deleteOp {π : Type} (i : Nat) (q : List (PendingOp π)) : List (PendingOp π) :=
  q.filter (fun o => o.id ≠ i)

/-- Stable insert for the timestamp sort. -/
def insertByTs {π : Type} (x : PendingOp π) : List (PendingOp π) → List (PendingOp π)
  | [] => [x]
  | y :: rest =>
      if x.timestamp ≤ y.timestamp then x :: y :: rest else y :: insertByTs x rest

/-- Stable sort by timestamp ascending (Dexie sortBy with a stable
Array.prototype.sort). -/
def sortByTs {π : Type} : List (PendingOp π) → List (PendingOp π)
  | [] => []
  | x :: rest => insertByTs x (sortByTs rest)

/-- IndexedDbService.getPendingOperations: all operations whose status is
pending, sorted by creation timestamp, oldest first. -/
def getPendingOperations {π : Type} (q : List (PendingOp π)) : List (PendingOp π) :=
  sortByTs (q.filter (fun o => o.status = OpStatus.pending))

/-- IndexedDbService.getPendingOperationsByEntity: operations of one entity
type whose status is pending, in primary-key (insertion) order. -/
def getPendingOperationsByEntity {π : Type} (e : String) (q : List (PendingOp π)) :
    List (PendingOp π) :=
  q.filter (fun o => o.entity = e ∧ o.status = OpStatus.pending)

/-- IndexedDbService.addPendingOperation: stamps timestamp, retries 0 and
status pending, and assigns the auto-increment id. -/
def addPendingOp {π : Type} (now : Nat) (ty : OpType) (entity entityId : String)
    (payload : π) (maxRetries : Nat) (q : List (PendingOp π)) (nextId : Nat) :
    Nat × List (PendingOp π) × Nat :=
  (nextId,
    q ++ [{ id := nextId, type := ty, entity, entityId, payload,
            timestamp := now, retries := 0, maxRetries,
            status := OpStatus.pending, error := none }],
    nextId + 1)

/-- IndexedDbService.getPendingCount. -/
def getPendingCount {π : Type} (q : List (PendingOp π)) : Nat :=
  (q.filter (fun o => o.status = OpStatus.pending)).length

/-- Dexie Table.delete by primary key: remove the (unique) record with
the key. -/
def idbErase {α : Type} (k : String) : List (CachedItem α) → List (CachedItem α)
  | [] => []
  | it :: rest => if it.key = k then rest else it :: idbErase k rest

/-- IndexedDbService.getCache: lazily deletes an expired record and treats
it as absent. Returns the value and the updated cache table. -/
def idbGetCache {α : Type} (now : Nat) (k : String) (tbl : List (CachedItem α)) :
    Option α × List (CachedItem α) :=
  match tbl.find? (fun it => it.key == k) with
  | none => (none, tbl)
  | some it =>
      if it.expiresAt < now then
        (none, idbErase k tbl)
      else (some it.value, tbl)

/-- Dexie Table.put: replace by primary key or insert. -/
def idbPut {α : Type} (it : CachedItem α) : List (CachedItem α) → List (CachedItem α)
  | [] => [it]
  | it' :: rest => if it'.key = it.key then it :: rest else it' :: idbPut it rest

/-- IndexedDbService.setCache. -/
def idbSetCache {α : Type} (now : Nat) (k : String) (v : α) (ttl : Nat)
    (tbl : List (CachedItem α)) : List (CachedItem α) :=
  idbPut { key := k, value := v, timestamp := now, expiresAt := now + ttl, version := 1 } tbl

/-- IndexedDbService.deleteCache. -/
def idbDeleteCache {α : Type} (k : String) (tbl : List (CachedItem α)) :
    List (CachedItem α) :=
  idbErase k tbl

/-- IndexedDbService.clearCacheByPrefix. -/
def idbClearCachePre {α : Type} (p : String) (tbl : List (CachedItem α)) :
    List (CachedItem α) :=
  tbl.filter (fun it => !it.key.startsWith p)

/-- The live (non-expired) records of the durable cache at a given time. -/
def idbLive {α : Type} (now : Nat) (tbl : List (CachedItem α)) : List (CachedItem α) :=
  tbl.filter (fun it => !decide (it.expiresAt < now))

-- =============================================================================
-- Offline Sync Service (src/app/data/sync/offlineSyncService.ts)
-- =============================================================================

/-- SyncStatus of the engine. -/
inductive SyncStatus where
  | idle
  | syncing
  | success
  | failed
deriving Repr, DecidableEq

/-- The handler triple registered for one entity type. A handler either
resolves (ok) or rejects with an error message. -/
structure SyncHandlers (π : Type) where
  hCreate : PendingOp π → Except String Unit
  hUpdate : PendingOp π → Except String Unit
  hDelete : PendingOp π → Except String Unit

/-- Dispatch to the registered handler for the kind of the operation. -/
def runHandler {π : Type} (h : SyncHandlers π) (op : PendingOp π) : Except String Unit :=
  match op.type with
  | OpType.opCreate => h.hCreate op
  | OpType.opUpdate => h.hUpdate op
  | OpType.opDelete => h.hDelete op

/-- One write against the pendingOperations table, recorded for the
transition audit. -/
inductive QueueWrite where
  | wUpd (id : Nat) (patch : OpPatch)
  | wDel (id : Nat)
deriving Repr, DecidableEq

/-- The patch marking an operation as processing. -/
def procPatch : OpPatch := { status := some OpStatus.processing, retries := none, errMsg := none }

/-- The terminal patch for a handler failure: retries increments, and the
status becomes failed once the incremented count reaches maxRetries,
otherwise reverts to pending. -/
def failPatch {π : Type} (op : PendingOp π) (msg : String) : OpPatch :=
  if op.maxRetries ≤ op.retries + 1 then
    { status := some OpStatus.failed, retries := some (op.retries + 1), errMsg := some msg }
  else
    { status := some OpStatus.pending, retries := some (op.retries + 1), errMsg := none }

/-- The queue-level effect of processing one fetched operation, abstracted
over the action the processor runs for it: `none` means no handler is
registered for the entity (the operation is skipped before any write),
`some r` is the outcome of the dispatched handler or remote call.
Returns the new queue, the synced/failed counter increments and the list
of table writes performed, in order. -/
def processOne {π : Type} (act : PendingOp π → Option (Except String Unit))
    (op : PendingOp π) (q : List (PendingOp π)) :
    List (PendingOp π) × Nat × Nat × List QueueWrite :=
  match act op with
  | none => (q, 0, 0, [])
  | some res =>
      let q1 := updateOp op.id procPatch q
      match res with
      | Except.ok _ =>
          (deleteOp op.id q1, 1, 0, [QueueWrite.wUpd op.id procPatch, QueueWrite.wDel op.id])
      | Except.error msg =>
          (updateOp op.id (failPatch op msg) q1,
            0, (if op.maxRetries ≤ op.retries + 1 then 1 else 0),
            [QueueWrite.wUpd op.id procPatch, QueueWrite.wUpd op.id (failPatch op msg)])

/-- Process a fetched snapshot list in order, threading the queue and
accumulating counters and writes. -/
def processOps {π : Type} (act : PendingOp π → Option (Except String Unit)) :
    List (PendingOp π) → List (PendingOp π) → List (PendingOp π) × Nat × Nat × List QueueWrite
  | [], q => (q, 0, 0, [])
  | op :: rest, q =>
      let (q1, s1, f1, w1) := processOne act op q
      let (q2, s2, f2, w2) := processOps act rest q1
      (q2, s1 + s2, f1 + f2, w1 ++ w2)

/-- OfflineSyncService.syncOperation, as the action of one operation: skip
when no handler is registered for the entity, else dispatch by kind. -/
def engineAct {π : Type} (H : String → Option (SyncHandlers π)) (op : PendingOp π) :
    Option (Except String Unit) :=
  (H op.entity).map (fun h => runHandler h op)

/-- The queue transform of one engine drain: fetch the globally pending
operations ordered by timestamp and process each in order. -/
def engineDrainQueue {π : Type} (H : String → Option (SyncHandlers π))
    (q : List (PendingOp π)) : List (PendingOp π) × Nat × Nat × List QueueWrite :=
  processOps (engineAct H) (getPendingOperations q) q

/-- State of OfflineSyncService together with the queue it drains. -/
structure SyncState (π : Type) where
  queue : List (PendingOp π)
  nextId : Nat
  status : SyncStatus
  syncedCount : Nat
  failedCount : Nat
  pendingCount : Nat
deriving Repr, DecidableEq

/-- OfflineSyncService.sync: no-op while already syncing or offline;
otherwise drain the fetched pending operations in order, ending in the
success status, and refresh the pending count. The engine model has no
failing storage layer, so the catch branch of sync is unreachable and the
run always ends in success. -/
def syncDrain {π : Type} (H : String → Option (SyncHandlers π)) (online : Bool)
    (s : SyncState π) : SyncState π :=
  if s.status = SyncStatus.syncing then s
  else if !online then s
  else
    let (q', ds, df, _) := engineDrainQueue H s.queue
    { s with queue := q', status := SyncStatus.success,
             syncedCount := s.syncedCount + ds,
             failedCount := s.failedCount + df,
             pendingCount := getPendingCount q' }

-- =============================================================================
-- Domain model and user mapper (src/app/data/mappers/userMapper.ts)
-- =============================================================================

/-- Domain User. Date objects are represented by their millisecond value. -/
structure UserM where
  id : String
  email : String
  firstName : String
  lastName : String
  avatar : Option String
  createdAt : Nat
  updatedAt : Nat
deriving Repr, DecidableEq

/-- CreateUserDto. -/
structure CreateDto where
  email : String
  firstName : String
  lastName : String
  avatar : Option String
deriving Repr, DecidableEq

/-- UpdateUserDto: every field optional. -/
structure UpdateDto where
  email : Option String
  firstName : Option String
  lastName : Option String
  avatar : Option String
deriving Repr, DecidableEq

/-- UserApiDto (snake_case payload from the backend); the ISO date strings
are represented by their millisecond value. -/
structure UserApiDto where
  id : String
  email : String
  first_name : String
  last_name : String
  avatar : Option String
  created_at : Nat
  updated_at : Nat
deriving Repr, DecidableEq

/-- PaginatedApiResponse. -/
structure PaginatedApiDto where
  data : List UserApiDto
  page : Nat
  per_page : Nat
  total : Nat
  total_pages : Nat
deriving Repr, DecidableEq

/-- PaginatedResponse of the domain. -/
structure PaginatedM where
  data : List UserM
  page : Nat
  pageSize : Nat
  total : Nat
  totalPages : Nat
deriving Repr, DecidableEq

/-- The body built by userMapper.toCreateApiDto. -/
structure CreateApiBody where
  email : String
  first_name : String
  last_name : String
  avatar : Option String
deriving Repr, DecidableEq

/-- The body built by userMapper.toUpdateApiDto: only the defined fields
of the dto are present. -/
structure UpdateApiBody where
  email : Option String
  first_name : Option String
  last_name : Option String
  avatar : Option String
deriving Repr, DecidableEq

/-- userMapper.toDomain. -/
def toDomain (dto : UserApiDto) : UserM :=
  { id := dto.id, email := dto.email, firstName := dto.first_name,
    lastName := dto.last_name, avatar := dto.avatar,
    createdAt := dto.created_at, updatedAt := dto.updated_at }

/-- userMapper.toCreateApiDto. -/
def toCreateApiDto (dto : CreateDto) : CreateApiBody :=
  { email := dto.email, first_name := dto.firstName,
    last_name := dto.lastName, avatar := dto.avatar }

/-- userMapper.toUpdateApiDto. -/
def toUpdateApiDto (dto : UpdateDto) : UpdateApiBody :=
  { email := dto.email, first_name := dto.firstName,
    last_name := dto.lastName, avatar := dto.avatar }

/-- userMapper.toPaginatedDomain. -/
def toPaginatedDomain (r : PaginatedApiDto) : PaginatedM :=
  { data := r.data.map toDomain, page := r.page, pageSize := r.per_page,
    total := r.total, totalPages := r.total_pages }

/-- userMapper.createOfflineUser: synthesises a local user whose id is the
reserved prefix followed by a generated uuid (crypto.randomUUID is passed
in as the `uuid` argument). -/
def createOfflineUser (now : Nat) (uuid : String) (dto : CreateDto) : UserM :=
  { id := "offline_" ++ uuid, email := dto.email, firstName := dto.firstName,
    lastName := dto.lastName, avatar := dto.avatar,
    createdAt := now, updatedAt := now }

/-- userMapper.applyUpdate. -/
def applyUpdate (now : Nat) (user : UserM) (dto : UpdateDto) : UserM :=
  { user with
      email := dto.email.getD user.email,
      firstName := dto.firstName.getD user.firstName,
      lastName := dto.lastName.getD user.lastName,
      avatar := match dto.avatar with | some a => some a | none => user.avatar,
      updatedAt := now }

-- =============================================================================
-- User Repository (part_001: 4-layer caching architecture)
-- =============================================================================

/-- The value space of the shared cache layers: the repository stores
single users, paginated list results and (nothing ever writes it, see the
users:all claim) arrays of users under distinct key namespaces. -/
inductive CVal where
  | vUser (u : UserM)
  | vPage (p : PaginatedM)
  | vList (l : List UserM)
deriving Repr, DecidableEq

/-- Read a cache value as a User. The fallback mirrors the unchecked
generic cast of the TypeScript source, which is unreachable because user
values are only ever stored under user keys. -/
def CVal.asUserD : CVal → UserM
  | CVal.vUser u => u
  | _ => { id := "", email := "", firstName := "", lastName := "", avatar := none,
           createdAt := 0, updatedAt := 0 }

/-- Read a cache value as a paginated result (same unchecked cast). -/
def CVal.asPageD : CVal → PaginatedM
  | CVal.vPage p => p
  | _ => { data := [], page := 0, pageSize := 0, total := 0, totalPages := 0 }

/-- Read a cache value as an array of users (same unchecked cast). -/
def CVal.asListD : CVal → List UserM
  | CVal.vList l => l
  | _ => []

/-- Pending-operation payloads the repository enqueues. -/
inductive PayloadM where
  | pCreate (dto : CreateDto)
  | pUpdate (dto : UpdateDto)
  | pNull
deriving Repr, DecidableEq

/-- The unchecked `op.payload as CreateUserDto` cast of the sync path. -/
def PayloadM.asCreateD : PayloadM → CreateDto
  | PayloadM.pCreate d => d
  | _ => { email := "", firstName := "", lastName := "", avatar := none }

/-- The unchecked `op.payload as UpdateUserDto` cast of the sync path. -/
def PayloadM.asUpdateD : PayloadM → UpdateDto
  | PayloadM.pUpdate d => d
  | _ => { email := none, firstName := none, lastName := none, avatar := none }

/-- APP_CONSTANTS.CACHE.DEFAULT_TTL. -/
def DEFAULT_TTL : Nat := 300000
/-- APP_CONSTANTS.CACHE.LIST_TTL. -/
def LIST_TTL : Nat := 60000
/-- APP_CONSTANTS.CACHE.LONG_TTL. -/
def LONG_TTL : Nat := 3600000

/-- One remote-transport call, as recorded in the call log. -/
inductive ApiCall where
  | apiGetUser (id : String)
  | apiGetList (page pageSize : Nat) (search : Option String)
  | apiPostUser (body : CreateApiBody)
  | apiPutUser (id : String) (body : UpdateApiBody)
  | apiDelUser (id : String)
deriving Repr, DecidableEq

/-- Is the call a mutating (POST/PUT/DELETE) call? -/
def ApiCall.isMutation : ApiCall → Bool
  | ApiCall.apiPostUser _ => true
  | ApiCall.apiPutUser _ _ => true
  | ApiCall.apiDelUser _ => true
  | _ => false

/-- Behaviour of the remote transport: each endpoint either resolves with
data or rejects with the message of the categorized error. -/
structure ApiOracle where
  getUser : String → Except String UserApiDto
  listUsers : Nat → Nat → Option String → Except String PaginatedApiDto
  postUser : CreateApiBody → Except String UserApiDto
  putUser : String → UpdateApiBody → Except String UserApiDto
  delUser : String → Except String Unit

/-- Pagination params. -/
structure PageParams where
  page : Nat
  pageSize : Nat
deriving Repr, DecidableEq

/-- The whole observable state the UserRepository orchestrates: the three
cache layers, the durable pending-operation queue, the connectivity
reading, the reactive error/loading state and the log of transport calls
performed. -/
structure RepoState where
  mem : MemCache CVal
  lru : LRUCache CVal
  idbCache : List (CachedItem CVal)
  queue : List (PendingOp PayloadM)
  nextId : Nat
  online : Bool
  errorMsg : Option String
  loadingFlag : Bool
  lastSync : Option Nat
  apiLog : List ApiCall

/-- CACHE_KEYS.USER. -/
def userKey (id : String) : String := "user:" ++ id

/-- CACHE_KEYS.USER_LIST. -/
def userListKey (page pageSize : Nat) (search : Option String) : String :=
  "users:list:" ++ (toString page ++ ":" ++ toString pageSize ++ ":" ++ search.getD "")

/-- CACHE_KEYS.ALL_USERS. -/
def allUsersKey : String := "users:all"

/-- UserRepository.cacheUser: fan the user out to all three layers, with
the default TTL in the LRU layer and the long TTL in IndexedDB. -/
def cacheUser (now : Nat) (u : UserM) (s : RepoState) : RepoState :=
  let k := userKey u.id
  { s with
      mem := memSet now k (CVal.vUser u) s.mem,
      lru := lruSet now k (CVal.vUser u) (some DEFAULT_TTL) s.lru,
      idbCache := idbSetCache now k (CVal.vUser u) LONG_TTL s.idbCache }

/-- UserRepository.removeFromCache. -/
def removeFromCache (id : String) (s : RepoState) : RepoState :=
  let k := userKey id
  { s with
      mem := (memDelete k s.mem).2,
      lru := (lruDelete k s.lru).2,
      idbCache := idbDeleteCache k s.idbCache }

/-- UserRepository.invalidateListCache. -/
def invalidateListCache (s : RepoState) : RepoState :=
  { s with mem := memClearPre "users:list" s.mem, lru := lruClearPre "users:list" s.lru }

/-- UserRepository.getById: the four-layer read cascade. A hit at layer 2
populates layer 1, a hit at layer 3 populates layers 2 and 1. On a full
miss the repository returns null while offline; online it calls the
transport, caching on success and recording the error message in the
reactive error state (and returning null) on failure. The result is an
Except so that a thrown error would be observable; the source never
throws from getById. -/
def getById (api : ApiOracle) (now : Nat) (id : String) (s : RepoState) :
    Except String (Option UserM) × RepoState :=
  let cacheKey := userKey id
  match memGet now cacheKey s.mem with
  | (some v, mem') => (Except.ok (some v.asUserD), { s with mem := mem' })
  | (none, mem') =>
    let s := { s with mem := mem' }
    match lruGet now cacheKey s.lru with
    | (some v, lru') =>
        (Except.ok (some v.asUserD),
          { s with lru := lru', mem := memSet now cacheKey v s.mem })
    | (none, lru') =>
      let s := { s with lru := lru' }
      match idbGetCache now cacheKey s.idbCache with
      | (some v, idb') =>
          (Except.ok (some v.asUserD),
            { s with idbCache := idb',
                     lru := lruSet now cacheKey v none s.lru,
                     mem := memSet now cacheKey v s.mem })
      | (none, idb') =>
        let s := { s with idbCache := idb' }
        if !s.online then (Except.ok none, s)
        else
          let s := { s with apiLog := s.apiLog ++ [ApiCall.apiGetUser id] }
          match api.getUser id with
          | Except.ok dto =>
              let u := toDomain dto
              (Except.ok (some u), { cacheUser now u s with loadingFlag := false })
          | Except.error msg =>
              (Except.ok none, { s with errorMsg := some msg, loadingFlag := false })

/-- UserRepository.getOfflineList: reconstruct a page from the users:all
durable record, filtering case-insensitively on first name, last name and
email, then paginating client-side. -/
def getOfflineList (now : Nat) (params : PageParams) (search : Option String)
    (s : RepoState) : PaginatedM × RepoState :=
  let (v, idb') := idbGetCache now allUsersKey s.idbCache
  let allUsers := match v with | some cv => cv.asListD | none => []
  let filtered :=
    if (search.getD "") = "" then allUsers
    else
      let searchLower := (search.getD "").toLower
      allUsers.filter (fun u =>
        strIncludes u.firstName.toLower searchLower ||
        strIncludes u.lastName.toLower searchLower ||
        strIncludes u.email.toLower searchLower)
  let start := (params.page - 1) * params.pageSize
  let paginated := (filtered.drop start).take params.pageSize
  ({ data := paginated, page := params.page, pageSize := params.pageSize,
     total := filtered.length, totalPages := ceilDiv filtered.length params.pageSize },
   { s with idbCache := idb' })

/-- UserRepository.getList: cascade over the LRU cache and IndexedDB
(memory is skipped for lists), then the transport, falling back to the
offline list while offline or when the transport fails. -/
def getList (api : ApiOracle) (now : Nat) (params : PageParams)
    (search : Option String) (s : RepoState) : PaginatedM × RepoState :=
  let cacheKey := userListKey params.page params.pageSize search
  match lruGet now cacheKey s.lru with
  | (some v, lru') => (v.asPageD, { s with lru := lru' })
  | (none, lru') =>
    let s := { s with lru := lru' }
    match idbGetCache now cacheKey s.idbCache with
    | (some v, idb') =>
        (v.asPageD,
          { s with idbCache := idb', lru := lruSet now cacheKey v none s.lru })
    | (none, idb') =>
      let s := { s with idbCache := idb' }
      if !s.online then getOfflineList now params search s
      else
        let s := { s with apiLog := s.apiLog ++
          [ApiCall.apiGetList params.page params.pageSize search] }
        match api.listUsers params.page params.pageSize search with
        | Except.ok rdto =>
            let result := toPaginatedDomain rdto
            let s := { s with
              lru := lruSet now cacheKey (CVal.vPage result) (some LIST_TTL) s.lru,
              idbCache := idbSetCache now cacheKey (CVal.vPage result) LIST_TTL s.idbCache }
            let s := result.data.foldl (fun s u => cacheUser now u s) s
            (result, { s with lastSync := some now, loadingFlag := false })
        | Except.error msg =>
            getOfflineList now params search
              { s with errorMsg := some msg, loadingFlag := false }

/-- UserRepository.createOffline: synthesize a local user, cache it in all
layers, enqueue one create mutation capturing the dto, maxRetries 3. -/
def createOffline (now : Nat) (uuid : String) (dto : CreateDto) (s : RepoState) :
    UserM × RepoState :=
  let u := createOfflineUser now uuid dto
  let s := cacheUser now u s
  let (_, q', next') :=
    addPendingOp now OpType.opCreate "user" u.id (PayloadM.pCreate dto) 3 s.queue s.nextId
  (u, { s with queue := q', nextId := next' })

/-- UserRepository.create: offline goes straight to createOffline; online
posts to the transport, caching and invalidating list pages on success,
falling back to createOffline when the failure message is
network-classified and rethrowing otherwise. -/
def createUser (api : ApiOracle) (now : Nat) (uuid : String) (dto : CreateDto)
    (s : RepoState) : Except String UserM × RepoState :=
  if !s.online then
    let (u, s') := createOffline now uuid dto s
    (Except.ok u, s')
  else
    let s := { s with apiLog := s.apiLog ++ [ApiCall.apiPostUser (toCreateApiDto dto)] }
    match api.postUser (toCreateApiDto dto) with
    | Except.ok rdto =>
        let u := toDomain rdto
        let s := invalidateListCache (cacheUser now u s)
        (Except.ok u, { s with loadingFlag := false })
    | Except.error msg =>
        if strIncludes msg "network" then
          let (u, s') := createOffline now uuid dto s
          (Except.ok u, { s' with loadingFlag := false })
        else (Except.error msg, { s with loadingFlag := false })

/-- UserRepository.updateOffline. -/
def updateOffline (now : Nat) (existing : UserM) (dto : UpdateDto) (s : RepoState) :
    UserM × RepoState :=
  let u := applyUpdate now existing dto
  let s := cacheUser now u s
  let (_, q', next') :=
    addPendingOp now OpType.opUpdate "user" existing.id (PayloadM.pUpdate dto) 3 s.queue s.nextId
  (u, { s with queue := q', nextId := next' })

/-- UserRepository.update: requires the entity to resolve via the read
cascade, failing with the not-found error before any write otherwise. -/
def updateUser (api : ApiOracle) (now : Nat) (id : String) (dto : UpdateDto)
    (s : RepoState) : Except String UserM × RepoState :=
  match getById api now id s with
  | (Except.error e, s1) => (Except.error e, s1)
  | (Except.ok none, s1) => (Except.error "User not found", s1)
  | (Except.ok (some existing), s1) =>
    if !s1.online then
      let (u, s') := updateOffline now existing dto s1
      (Except.ok u, s')
    else
      let s1 := { s1 with apiLog := s1.apiLog ++
        [ApiCall.apiPutUser id (toUpdateApiDto dto)] }
      match api.putUser id (toUpdateApiDto dto) with
      | Except.ok rdto =>
          let u := toDomain rdto
          let s2 := invalidateListCache (cacheUser now u s1)
          (Except.ok u, { s2 with loadingFlag := false })
      | Except.error msg =>
          if strIncludes msg "network" then
            let (u, s') := updateOffline now existing dto s1
            (Except.ok u, { s' with loadingFlag := false })
          else (Except.error msg, { s1 with loadingFlag := false })

/-- UserRepository.deleteOffline. -/
def deleteOffline (now : Nat) (id : String) (s : RepoState) : RepoState :=
  let s := removeFromCache id s
  let (_, q', next') :=
    addPendingOp now OpType.opDelete "user" id PayloadM.pNull 3 s.queue s.nextId
  { s with queue := q', nextId := next' }

/-- UserRepository.delete: requires the entity to resolve via the read
cascade, failing with the not-found error before any write otherwise. -/
def deleteUser (api : ApiOracle) (now : Nat) (id : String) (s : RepoState) :
    Except String Unit × RepoState :=
  match getById api now id s with
  | (Except.error e, s1) => (Except.error e, s1)
  | (Except.ok none, s1) => (Except.error "User not found", s1)
  | (Except.ok (some _), s1) =>
    if !s1.online then
      (Except.ok (), deleteOffline now id s1)
    else
      let s1 := { s1 with apiLog := s1.apiLog ++ [ApiCall.apiDelUser id] }
      match api.delUser id with
      | Except.ok _ =>
          let s2 := invalidateListCache (removeFromCache id s1)
          (Except.ok (), { s2 with loadingFlag := false })
      | Except.error msg =>
          if strIncludes msg "network" then
            (Except.ok (), { deleteOffline now id s1 with loadingFlag := false })
          else (Except.error msg, { s1 with loadingFlag := false })

/-- The transport round trip the repository replay performs for one queued
mutation: its success or failure depends only on the operation. -/
def repoCall (api : ApiOracle) (op : PendingOp PayloadM) : Except String Unit :=
  match op.type with
  | OpType.opCreate =>
      (api.postUser (toCreateApiDto op.payload.asCreateD)).map (fun _ => ())
  | OpType.opUpdate =>
      (api.putUser op.entityId (toUpdateApiDto op.payload.asUpdateD)).map (fun _ => ())
  | OpType.opDelete => api.delUser op.entityId

/-- One step of UserRepository.syncPendingOperations: mark processing,
replay the mutation through the transport, delete the queue entry on
success (after the cache reconciliation of syncCreate/syncUpdate), or
apply the retry/failed bookkeeping on failure. -/
def syncOneRepo (api : ApiOracle) (now : Nat) (s : RepoState)
    (op : PendingOp PayloadM) : RepoState :=
  let s1 := { s with queue := updateOp op.id procPatch s.queue }
  match op.type with
  | OpType.opCreate =>
    let body := toCreateApiDto op.payload.asCreateD
    let s1 := { s1 with apiLog := s1.apiLog ++ [ApiCall.apiPostUser body] }
    match api.postUser body with
    | Except.ok rdto =>
        let s2 := cacheUser now (toDomain rdto) (removeFromCache op.entityId s1)
        { s2 with queue := deleteOp op.id s2.queue }
    | Except.error msg =>
        { s1 with queue := updateOp op.id (failPatch op msg) s1.queue }
  | OpType.opUpdate =>
    let body := toUpdateApiDto op.payload.asUpdateD
    let s1 := { s1 with apiLog := s1.apiLog ++ [ApiCall.apiPutUser op.entityId body] }
    match api.putUser op.entityId body with
    | Except.ok rdto =>
        let s2 := cacheUser now (toDomain rdto) s1
        { s2 with queue := deleteOp op.id s2.queue }
    | Except.error msg =>
        { s1 with queue := updateOp op.id (failPatch op msg) s1.queue }
  | OpType.opDelete =>
    let s1 := { s1 with apiLog := s1.apiLog ++ [ApiCall.apiDelUser op.entityId] }
    match api.delUser op.entityId with
    | Except.ok _ => { s1 with queue := deleteOp op.id s1.queue }
    | Except.error msg =>
        { s1 with queue := updateOp op.id (failPatch op msg) s1.queue }

/-- UserRepository.syncPendingOperations: replay the pending user
mutations in queue order when online. -/
def syncPendingOperations (api : ApiOracle) (now : Nat) (s : RepoState) : RepoState :=
  if !s.online then s
  else (getPendingOperationsByEntity "user" s.queue).foldl (syncOneRepo api now) s

/-- UserRepository.clearCache. -/
def clearCache (s : RepoState) : RepoState :=
  { s with mem := memClearPre "user" s.mem, lru := lruClearPre "user" s.lru,
           idbCache := idbClearCachePre "user" s.idbCache }

-- =============================================================================
-- Trace and invariant machinery (Lean-side definitions used by the theorems)
-- =============================================================================

/-- The client-visible operations of the Bounded TTL Cache that the
capacity claim quantifies over. -/
inductive LRUOp (α : Type) where
  | get (k : String)
  | set (k : String) (v : α) (ttl : Option Nat)
  | touch (k : String) (ttl : Option Nat)
  | del (k : String)

/-- Run one timed cache operation, keeping only the state. -/
def lruStep {α : Type} (now : Nat) (op : LRUOp α) (c : LRUCache α) : LRUCache α :=
  match op with
  | LRUOp.get k => (lruGet now k c).2
  | LRUOp.set k v ttl => lruSet now k v ttl c
  | LRUOp.touch k ttl => (lruTouch now k ttl c).2
  | LRUOp.del k => (lruDelete k c).2

/-- Run a timed trace of cache operations. -/
def lruRun {α : Type} (c : LRUCache α) : List (Nat × LRUOp α) → LRUCache α
  | [] => c
  | (t, op) :: rest => lruRun (lruStep t op c) rest

/-- Well-formedness of a cache state at clock bound `t`: at most maxSize
nodes, the recency list strictly ordered by last access (head most
recent), and every access in the past. -/
def lruWF {α : Type} (t : Nat) (c : LRUCache α) : Prop :=
  c.list.length ≤ c.maxSize ∧
  c.list.Pairwise (fun a b => b.lastAccessed < a.lastAccessed) ∧
  ∀ n ∈ c.list, n.lastAccessed < t

/-- The operation times of a trace are at least the bound and strictly
increasing (each cache call happens at a distinct later instant). -/
def timesOK {α : Type} : Nat → List (Nat × LRUOp α) → Prop
  | _, [] => True
  | t0, (t, _) :: rest => t0 ≤ t ∧ timesOK (t + 1) rest

instance lruWFDec {α : Type} [DecidableEq α] (t : Nat) (c : LRUCache α) :
    Decidable (lruWF t c) := by
  unfold lruWF
  infer_instance

instance timesOKDec {α : Type} : (t0 : Nat) → (ops : List (Nat × LRUOp α)) →
    Decidable (timesOK t0 ops)
  | _, [] => Decidable.isTrue trivial
  | t0, (t, _) :: rest =>
      haveI := timesOKDec (t + 1) rest
      inferInstanceAs (Decidable (t0 ≤ t ∧ timesOK (t + 1) rest))

/-- The queue record an operation is left as by one processing step:
none when the step deleted it. Mirrors processOne on the operation it
targets. -/
def opOutcome {π : Type} (act : PendingOp π → Option (Except String Unit))
    (o : PendingOp π) : Option (PendingOp π) :=
  match act o with
  | none => some o
  | some (Except.ok _) => none
  | some (Except.error msg) => some (applyPatch (failPatch o msg) (applyPatch procPatch o))

/-- Did the action succeed for this operation (the synced counter ticks)? -/
def actSynced {π : Type} (act : PendingOp π → Option (Except String Unit))
    (o : PendingOp π) : Bool :=
  match act o with
  | some (Except.ok _) => true
  | _ => false

/-- Did the action fail with the retry budget exhausted (the failed
counter ticks)? -/
def actFailedOut {π : Type} (act : PendingOp π → Option (Except String Unit))
    (o : PendingOp π) : Bool :=
  match act o with
  | some (Except.error _) => decide (o.maxRetries ≤ o.retries + 1)
  | _ => false

/-- The exact table writes one processed operation causes, in order. -/
def opWrites {π : Type} (act : PendingOp π → Option (Except String Unit))
    (o : PendingOp π) : List QueueWrite :=
  match act o with
  | none => []
  | some (Except.ok _) => [QueueWrite.wUpd o.id procPatch, QueueWrite.wDel o.id]
  | some (Except.error msg) =>
      [QueueWrite.wUpd o.id procPatch, QueueWrite.wUpd o.id (failPatch o msg)]

/-- The operation a table write targets. -/
def QueueWrite.targetId : QueueWrite → Nat
  | QueueWrite.wUpd i _ => i
  | QueueWrite.wDel i => i

/-- The queue transform of one repository replay pass
(UserRepository.syncPendingOperations): the user-entity pending
operations in insertion order, each replayed through the transport. -/
def repoDrainQueue (act : PendingOp PayloadM → Except String Unit)
    (q : List (PendingOp PayloadM)) :
    List (PendingOp PayloadM) × Nat × Nat × List QueueWrite :=
  processOps (fun o => some (act o)) (getPendingOperationsByEntity "user" q) q

/-- Iterate engine drains (online, back to back). -/
def iterDrain {π : Type} (H : String → Option (SyncHandlers π)) :
    Nat → SyncState π → SyncState π
  | 0, st => st
  | Nat.succ n, st => iterDrain H n (syncDrain H true st)

/-- The operations that touch the pending-operation queue: repository
enqueues, engine drains, and repository replay passes. -/
inductive QueueEvent (π : Type) where
  | qEnqueue (now : Nat) (ty : OpType) (entity entityId : String) (payload : π)
      (maxRetries : Nat)
  | qEngineDrain (H : String → Option (SyncHandlers π))
  | qRepoDrain (act : PendingOp π → Except String Unit)

/-- Queue with its auto-increment counter. -/
structure QueueSt (π : Type) where
  q : List (PendingOp π)
  nextId : Nat

/-- Apply one queue event. The repository drain is stated for the user
entity it replays. -/
def queueStep {π : Type} : QueueEvent π → QueueSt π → QueueSt π
  | QueueEvent.qEnqueue now ty e eid p mr, s =>
      let (_, q', n') := addPendingOp now ty e eid p mr s.q s.nextId
      { q := q', nextId := n' }
  | QueueEvent.qEngineDrain H, s =>
      { s with q := (processOps (engineAct H) (getPendingOperations s.q) s.q).1 }
  | QueueEvent.qRepoDrain act, s =>
      { s with q :=
          (processOps (fun o => some (act o)) (getPendingOperationsByEntity "user" s.q) s.q).1 }

/-- All states a queue passes through along a sequence of events,
including the initial and final ones. -/
def statesAlong {π : Type} (s : QueueSt π) : List (QueueEvent π) → List (QueueSt π)
  | [] => [s]
  | ev :: rest => s :: statesAlong (queueStep ev s) rest

/-- Well-formedness the store guarantees: ids are unique and below the
auto-increment counter. -/
def queueWF {π : Type} (s : QueueSt π) : Prop :=
  (s.q.map (fun o => o.id)).Nodup ∧ ∀ o ∈ s.q, o.id < s.nextId

instance queueWFDec {π : Type} [DecidableEq π] (s : QueueSt π) :
    Decidable (queueWF s) := by
  unfold queueWF
  infer_instance

/-- The public repository operations, for quantifying over arbitrary
operation sequences. -/
inductive RepoOp where
  | rGetById (api : ApiOracle) (now : Nat) (id : String)
  | rGetList (api : ApiOracle) (now : Nat) (params : PageParams) (search : Option String)
  | rCreate (api : ApiOracle) (now : Nat) (uuid : String) (dto : CreateDto)
  | rUpdate (api : ApiOracle) (now : Nat) (id : String) (dto : UpdateDto)
  | rDelete (api : ApiOracle) (now : Nat) (id : String)
  | rSync (api : ApiOracle) (now : Nat)
  | rClear

/-- Apply one repository operation, keeping only the state. -/
def repoStep (op : RepoOp) (s : RepoState) : RepoState :=
  match op with
  | RepoOp.rGetById api now id => (getById api now id s).2
  | RepoOp.rGetList api now params search => (getList api now params search s).2
  | RepoOp.rCreate api now uuid dto => (createUser api now uuid dto s).2
  | RepoOp.rUpdate api now id dto => (updateUser api now id dto s).2
  | RepoOp.rDelete api now id => (deleteUser api now id s).2
  | RepoOp.rSync api now => syncPendingOperations api now s
  | RepoOp.rClear => clearCache s

/-- Run a sequence of repository operations. -/
def repoRun (s : RepoState) : List RepoOp → RepoState
  | [] => s
  | op :: rest => repoRun (repoStep op s) rest

/-- Lookup of the durable cache table by key. -/
def idbFind {α : Type} (k : String) (tbl : List (CachedItem α)) : Option (CachedItem α) :=
  tbl.find? (fun it => it.key == k)

/-- A fresh repository state: empty caches and queue, online, with the
singleton sizes of the source (memory 100, LRU 500). -/
def emptyRepo : RepoState :=
  { mem := MemCache.empty CVal 100, lru := LRUCache.empty CVal 500 DEFAULT_TTL,
    idbCache := [], queue := [], nextId := 1, online := true, errorMsg := none,
    loadingFlag := false, lastSync := none, apiLog := [] }

/-- Two pending unit-payload operations (deliberately enqueued with
out-of-order timestamps) for concrete drain scenarios. -/
def q0 : List (PendingOp Unit) :=
  [{ id := 1, type := OpType.opCreate, entity := "user", entityId := "a", payload := (),
     timestamp := 10, retries := 0, maxRetries := 3, status := OpStatus.pending,
     error := none },
   { id := 2, type := OpType.opUpdate, entity := "user", entityId := "b", payload := (),
     timestamp := 5, retries := 0, maxRetries := 3, status := OpStatus.pending,
     error := none }]

/-- An idle sync-service state holding the two pending operations. -/
def st0 : SyncState Unit :=
  { queue := q0, nextId := 3, status := SyncStatus.idle, syncedCount := 0,
    failedCount := 0, pendingCount := 2 }

/-- Handlers that always resolve. -/
def okHandlers : SyncHandlers Unit :=
  { hCreate := fun _ => Except.ok (), hUpdate := fun _ => Except.ok (),
    hDelete := fun _ => Except.ok () }

/-- Handlers that always reject. -/
def badHandlers : SyncHandlers Unit :=
  { hCreate := fun _ => Except.error "boom", hUpdate := fun _ => Except.error "boom",
    hDelete := fun _ => Except.error "boom" }

/-- A registry with the always-resolving handlers for every entity. -/
def HOk : String → Option (SyncHandlers Unit) := fun _ => some okHandlers

/-- A registry with the always-rejecting handlers for every entity. -/
def HBad : String → Option (SyncHandlers Unit) := fun _ => some badHandlers

/-- An empty registry: no entity type has a handler. -/
def HNone : String → Option (SyncHandlers Unit) := fun _ => none

/-- The first operation of the sample queue. -/
def op1 : PendingOp Unit :=
  { id := 1, type := OpType.opCreate, entity := "user", entityId := "a", payload := (),
    timestamp := 10, retries := 0, maxRetries := 3, status := OpStatus.pending,
    error := none }

/-- A terminally failed operation for concrete queue histories. -/
def qF : PendingOp Unit :=
  { id := 7, type := OpType.opDelete, entity := "user", entityId := "c", payload := (),
    timestamp := 2, retries := 3, maxRetries := 3, status := OpStatus.failed,
    error := some "boom" }

/-- A queue holding one pending and one failed operation. -/
def qSt1 : QueueSt Unit := { q := [op1, qF], nextId := 8 }

/-- A sample user for concrete instantiations. -/
def u0 : UserM :=
  { id := "1", email := "jane@example.com", firstName := "Jane", lastName := "Doe",
    avatar := none, createdAt := 0, updatedAt := 0 }

/-- The fresh repository state, but with the network monitor reporting
offline. -/
def offRepo : RepoState := { emptyRepo with online := false }

/-- A sample create dto for concrete instantiations. -/
def dto0 : CreateDto :=
  { email := "jane@example.com", firstName := "Jane", lastName := "Doe", avatar := none }

/-- A transport whose every call rejects with a server-unreachable
message (the categorized network error of the api layer). -/
def apiFailNet : ApiOracle :=
  { getUser := fun _ => Except.error "Server not responding",
    listUsers := fun _ _ _ => Except.error "Server not responding",
    postUser := fun _ => Except.error "Server not responding",
    putUser := fun _ _ => Except.error "Server not responding",
    delUser := fun _ => Except.error "Server not responding" }

-- =============================================================================
-- Basic lemmas about the association-list primitives
-- =============================================================================

lemma findVal_putAssoc_self {β : Type} (k : String) (v : β) (l : List (String × β)) :
    findVal k (putAssoc k v l) = some v := by
  induction l with
  | nil => simp [putAssoc, findVal]
  | cons h t ih =>
      obtain ⟨k', v'⟩ := h
      by_cases hk : k' = k
      · simp [putAssoc, hk, findVal]
      · simp [putAssoc, hk, findVal, ih]

lemma lruSet_shape {α : Type} (now : Nat) (k : String) (v : α) (ttl : Option Nat)
    (c : LRUCache α) :
    ∃ tail, (lruSet now k v ttl c).list =
      { key := k,
        entry := { value := v, expiresAt := now + ttl.getD c.defaultTTL, createdAt := now },
        lastAccessed := now } :: tail := by
  unfold lruSet
  cases lruFind k c.list with
  | some n => exact ⟨_, rfl⟩
  | none =>
      by_cases h : c.maxSize ≤ c.list.length
      · simp only [h, if_true]
        exact ⟨_, rfl⟩
      · simp only [h, if_false]
        exact ⟨_, rfl⟩

lemma lruGet_fst_head {α : Type} (t : Nat) (k : String) (n : LRUNodeM α)
    (c : LRUCache α) (l : List (LRUNodeM α)) (hk : n.key = k) (hl : c.list = n :: l) :
    (lruGet t k c).1 = if n.entry.expiresAt < t then none else some n.entry.value := by
  have hfind : lruFind k c.list = some n := by
    simp [lruFind, hl, List.find?, hk]
  by_cases hexp : n.entry.expiresAt < t
  · simp [lruGet, hfind, hexp]
  · simp [lruGet, hfind, hexp]

lemma idbPut_find_self {α : Type} (it : CachedItem α) (tbl : List (CachedItem α)) :
    (idbPut it tbl).find? (fun x => x.key == it.key) = some it := by
  induction tbl with
  | nil => simp [idbPut, List.find?]
  | cons h t ih =>
      by_cases hk : h.key = it.key
      · simp [idbPut, hk, List.find?]
      · have hbeq : (h.key == it.key) = false := beq_eq_false_iff_ne.mpr hk
        simp only [idbPut, hk, if_false]
        simp [List.find?, hbeq, ih]

/-- C7 (claim): in all three layers, a set followed immediately by a get
returns the stored value; in the TTL-bearing layers the get returns the
value exactly while the elapsed time is at most the TTL, and null once
it exceeds it. -/
theorem C7_set_get_round_trip {α : Type} :
    (∀ (c : MemCache α) (s t : Nat) (k : String) (v : α),
        (memGet t k (memSet s k v c)).1 = some v)
    ∧ (∀ (c : LRUCache α) (s t : Nat) (k : String) (v : α) (ttl : Option Nat),
        (lruGet t k (lruSet s k v ttl c)).1 =
          if t ≤ s + ttl.getD c.defaultTTL then some v else none)
    ∧ (∀ (tbl : List (CachedItem α)) (s t : Nat) (k : String) (v : α) (ttl : Nat),
        (idbGetCache t k (idbSetCache s k v ttl tbl)).1 =
          if t ≤ s + ttl then some v else none) := by
  refine ⟨?_, ?_, ?_⟩
  · intro c s t k v
    simp [memSet, memGet, findVal_putAssoc_self]
  · intro c s t k v ttl
    obtain ⟨tail, htail⟩ := lruSet_shape s k v ttl c
    rw [lruGet_fst_head t k _ _ tail rfl htail]
    by_cases h : t ≤ s + ttl.getD c.defaultTTL
    · have : ¬ (s + ttl.getD c.defaultTTL < t) := by omega
      simp [h, this]
    · have : s + ttl.getD c.defaultTTL < t := by omega
      simp [h, this]
  · intro tbl s t k v ttl
    have hfind := idbPut_find_self
      { key := k, value := v, timestamp := s, expiresAt := s + ttl, version := 1 } tbl
    by_cases h : t ≤ s + ttl
    · have hne : ¬ (s + ttl < t) := by omega
      simp [idbGetCache, idbSetCache, hfind, hne, h]
    · have hlt : s + ttl < t := by omega
      simp [idbGetCache, idbSetCache, hfind, hlt, h]

-- =============================================================================
-- C1: the four-layer read cascade of getById
-- =============================================================================

/-- C1 (claim): getById probes Memory, then LRU, then IndexedDB, then the
transport, returning at the first hit; an LRU hit populates Memory before
returning, an IndexedDB hit populates LRU and Memory before returning;
and when every cache layer misses while offline it returns null without
raising an error (error state and transport log untouched). -/
theorem C1_getById_cascade (api : ApiOracle) (now : Nat) (id : String) (s : RepoState) :
    (∀ e, findVal (userKey id) s.mem.entries = some e →
      (getById api now id s).1 = Except.ok (some e.value.asUserD)
      ∧ (getById api now id s).2.lru = s.lru
      ∧ (getById api now id s).2.idbCache = s.idbCache
      ∧ (getById api now id s).2.apiLog = s.apiLog)
    ∧ (∀ n, findVal (userKey id) s.mem.entries = none →
        lruFind (userKey id) s.lru.list = some n → ¬ n.entry.expiresAt < now →
      (getById api now id s).1 = Except.ok (some n.entry.value.asUserD)
      ∧ findVal (userKey id) (getById api now id s).2.mem.entries =
          some { value := n.entry.value, timestamp := now, accessCount := 1,
                 lastAccessed := now }
      ∧ (getById api now id s).2.idbCache = s.idbCache
      ∧ (getById api now id s).2.apiLog = s.apiLog)
    ∧ (∀ cv, findVal (userKey id) s.mem.entries = none →
        (lruGet now (userKey id) s.lru).1 = none →
        (idbGetCache now (userKey id) s.idbCache).1 = some cv →
      (getById api now id s).1 = Except.ok (some cv.asUserD)
      ∧ findVal (userKey id) (getById api now id s).2.mem.entries =
          some { value := cv, timestamp := now, accessCount := 1, lastAccessed := now }
      ∧ (∃ tail, (getById api now id s).2.lru.list =
          { key := userKey id,
            entry := { value := cv, expiresAt := now + s.lru.defaultTTL, createdAt := now },
            lastAccessed := now } :: tail)
      ∧ (getById api now id s).2.apiLog = s.apiLog)
    ∧ (findVal (userKey id) s.mem.entries = none →
        (lruGet now (userKey id) s.lru).1 = none →
        (idbGetCache now (userKey id) s.idbCache).1 = none →
        s.online = false →
      (getById api now id s).1 = Except.ok none
      ∧ (getById api now id s).2.errorMsg = s.errorMsg
      ∧ (getById api now id s).2.apiLog = s.apiLog) := by
  refine ⟨?_, ?_, ?_, ?_⟩
  · intro e hm
    simp [getById, memGet, hm]
  · intro n hm hl hlive
    simp [getById, memGet, hm, lruGet, hl, hlive, memSet, findVal_putAssoc_self]
  · intro cv hm hl hi
    rcases hL : lruGet now (userKey id) s.lru with ⟨r2, lru2⟩
    rw [hL] at hl
    simp only at hl
    subst hl
    rcases hI : idbGetCache now (userKey id) s.idbCache with ⟨r3, idb3⟩
    rw [hI] at hi
    simp only at hi
    subst hi
    have hdttl : lru2.defaultTTL = s.lru.defaultTTL := by
      have hsnd : (lruGet now (userKey id) s.lru).2.defaultTTL = s.lru.defaultTTL := by
        rcases hf : lruFind (userKey id) s.lru.list with _ | n
        · simp [lruGet, hf]
        · by_cases hexp : n.entry.expiresAt < now
          · simp [lruGet, hf, hexp]
          · simp [lruGet, hf, hexp]
      rw [hL] at hsnd
      exact hsnd
    obtain ⟨tail, ht⟩ := lruSet_shape now (userKey id) cv none lru2
    refine ⟨?_, ?_, ?_, ?_⟩
    · simp [getById, memGet, hm, hL, hI]
    · simp [getById, memGet, hm, hL, hI, memSet, findVal_putAssoc_self]
    · refine ⟨tail, ?_⟩
      have hlist : (getById api now id s).2.lru.list =
          (lruSet now (userKey id) cv none lru2).list := by
        simp [getById, memGet, hm, hL, hI]
      rw [hlist, ht]
      simp [hdttl]
    · simp [getById, memGet, hm, hL, hI]
  · intro hm hl hi hoff
    rcases hL : lruGet now (userKey id) s.lru with ⟨r2, lru2⟩
    rw [hL] at hl
    simp only at hl
    subst hl
    rcases hI : idbGetCache now (userKey id) s.idbCache with ⟨r3, idb3⟩
    rw [hI] at hi
    simp only at hi
    subst hi
    simp [getById, memGet, hm, hL, hI, hoff]

/-- Witness for C1: a concrete memory hit returns the cached user with no
transport call, and a concrete full miss while offline returns null with
no error recorded. -/
theorem C1_getById_cascade_witness :
    ((getById apiFailNet 6 "1" (cacheUser 5 u0 emptyRepo)).1 = Except.ok (some u0)
      ∧ (getById apiFailNet 6 "1" (cacheUser 5 u0 emptyRepo)).2.apiLog = [])
    ∧ ((getById apiFailNet 6 "2" offRepo).1 = Except.ok none
      ∧ (getById apiFailNet 6 "2" offRepo).2.errorMsg = none
      ∧ (getById apiFailNet 6 "2" offRepo).2.apiLog = []) := by
  constructor
  · have h := (C1_getById_cascade apiFailNet 6 "1" (cacheUser 5 u0 emptyRepo)).1
      { value := CVal.vUser u0, timestamp := 5, accessCount := 1, lastAccessed := 5 }
      (by decide)
    exact ⟨h.1, h.2.2.2⟩
  · have h := (C1_getById_cascade apiFailNet 6 "2" offRepo).2.2.2
      rfl rfl rfl rfl
    exact ⟨h.1, h.2.1, h.2.2⟩

-- =============================================================================
-- C4: offline create synthesizes a local entity, queues one mutation,
-- and the created entity is immediately readable without the transport
-- =============================================================================

/-- C4 (claim): while offline, create returns a synthesized user whose id
carries the reserved offline prefix, appends exactly one pending create
mutation capturing the dto, performs no transport call, and an immediate
getById of the new id returns that same user, still without any
transport call. -/
theorem C4_offline_create_then_read (api : ApiOracle) (now now2 : Nat) (uuid : String)
    (dto : CreateDto) (s : RepoState) (hoff : s.online = false) :
    (createUser api now uuid dto s).1 = Except.ok (createOfflineUser now uuid dto)
    ∧ (createOfflineUser now uuid dto).id = "offline_" ++ uuid
    ∧ (createUser api now uuid dto s).2.queue =
        s.queue ++ [{ id := s.nextId, type := OpType.opCreate, entity := "user",
                      entityId := (createOfflineUser now uuid dto).id,
                      payload := PayloadM.pCreate dto, timestamp := now, retries := 0,
                      maxRetries := 3, status := OpStatus.pending, error := none }]
    ∧ (createUser api now uuid dto s).2.apiLog = s.apiLog
    ∧ (getById api now2 (createOfflineUser now uuid dto).id
          (createUser api now uuid dto s).2).1 =
        Except.ok (some (createOfflineUser now uuid dto))
    ∧ (getById api now2 (createOfflineUser now uuid dto).id
          (createUser api now uuid dto s).2).2.apiLog = s.apiLog := by
  have hcreate : createUser api now uuid dto s =
      (Except.ok (createOfflineUser now uuid dto),
        { cacheUser now (createOfflineUser now uuid dto) s with
            queue := s.queue ++
              [{ id := s.nextId, type := OpType.opCreate, entity := "user",
                 entityId := (createOfflineUser now uuid dto).id,
                 payload := PayloadM.pCreate dto, timestamp := now, retries := 0,
                 maxRetries := 3, status := OpStatus.pending, error := none }],
            nextId := s.nextId + 1 }) := by
    simp [createUser, hoff, createOffline, addPendingOp, cacheUser]
  have hmemhit : findVal (userKey (createOfflineUser now uuid dto).id)
      (createUser api now uuid dto s).2.mem.entries =
      some { value := CVal.vUser (createOfflineUser now uuid dto), timestamp := now,
             accessCount := 1, lastAccessed := now } := by
    rw [hcreate]
    simp [cacheUser, memSet, findVal_putAssoc_self]
  have hread := (C1_getById_cascade api now2 (createOfflineUser now uuid dto).id
      (createUser api now uuid dto s).2).1 _ hmemhit
  refine ⟨?_, ?_, ?_, ?_, ?_, ?_⟩
  · rw [hcreate]
  · rfl
  · rw [hcreate]
  · rw [hcreate]
    simp [cacheUser]
  · exact hread.1
  · rw [hread.2.2.2, hcreate]
    simp [cacheUser]

/-- Witness for C4: the offline create of a concrete dto on a fresh
offline repository. -/
theorem C4_offline_create_then_read_witness :
    offRepo.online = false
    ∧ (createUser apiFailNet 7 "u1" dto0 offRepo).1 =
        Except.ok (createOfflineUser 7 "u1" dto0)
    ∧ (getById apiFailNet 8 (createOfflineUser 7 "u1" dto0).id
          (createUser apiFailNet 7 "u1" dto0 offRepo).2).1 =
        Except.ok (some (createOfflineUser 7 "u1" dto0)) := by
  have h := C4_offline_create_then_read apiFailNet 7 8 "u1" dto0 offRepo rfl
  exact ⟨rfl, h.1, h.2.2.2.2.1⟩

-- =============================================================================
-- C6: behaviour of getById when the transport fails on a full cache miss
-- =============================================================================

/-- C6 counterexample: with every cache layer empty, the monitor online
and a transport that rejects with a categorized network error, getById
resolves with null exactly like an ordinary absence; it does not surface
any error to the caller. -/
theorem C6_counterexample :
    (getById apiFailNet 5 "1" emptyRepo).1 = Except.ok none
    ∧ ∀ e, (getById apiFailNet 5 "1" emptyRepo).1 ≠ Except.error e := by
  have h : (getById apiFailNet 5 "1" emptyRepo).1 = Except.ok none := rfl
  refine ⟨h, ?_⟩
  intro e he
  rw [h] at he
  exact Except.noConfusion he

/-- C6 amended: when getById misses all three cache layers while online
and the transport call fails, the repository records the failure message
in its reactive error state but returns null to the caller (the same
value as an ordinary absence), rather than raising the error. -/
theorem C6_api_failure_sets_error_state (api : ApiOracle) (now : Nat) (id : String)
    (s : RepoState) (msg : String)
    (hm : findVal (userKey id) s.mem.entries = none)
    (hl : (lruGet now (userKey id) s.lru).1 = none)
    (hi : (idbGetCache now (userKey id) s.idbCache).1 = none)
    (hon : s.online = true)
    (hapi : api.getUser id = Except.error msg) :
    (getById api now id s).1 = Except.ok none
    ∧ (getById api now id s).2.errorMsg = some msg
    ∧ (getById api now id s).2.apiLog = s.apiLog ++ [ApiCall.apiGetUser id] := by
  rcases hL : lruGet now (userKey id) s.lru with ⟨r2, lru2⟩
  rw [hL] at hl
  simp only at hl
  subst hl
  rcases hI : idbGetCache now (userKey id) s.idbCache with ⟨r3, idb3⟩
  rw [hI] at hi
  simp only at hi
  subst hi
  simp [getById, memGet, hm, hL, hI, hon, hapi]

/-- Witness for the amended C6 at a fresh online repository and an
always-failing transport. -/
theorem C6_api_failure_sets_error_state_witness :
    (getById apiFailNet 5 "1" emptyRepo).1 = Except.ok none
    ∧ (getById apiFailNet 5 "1" emptyRepo).2.errorMsg = some "Server not responding" := by
  have h := C6_api_failure_sets_error_state apiFailNet 5 "1" emptyRepo
    "Server not responding" rfl rfl rfl rfl rfl
  exact ⟨h.1, h.2.1⟩

-- =============================================================================
-- C8: update and delete require the entity to resolve via the read path
-- =============================================================================

lemma lruLive_eraseNode_expired {α : Type} (now : Nat) (k : String)
    (l : List (LRUNodeM α)) (n : LRUNodeM α)
    (hf : lruFind k l = some n) (hexp : n.entry.expiresAt < now) :
    (eraseNode k l).filter (fun m => !decide (m.entry.expiresAt < now)) =
      l.filter (fun m => !decide (m.entry.expiresAt < now)) := by
  induction l with
  | nil => simp [lruFind] at hf
  | cons m rest ih =>
      by_cases hk : m.key = k
      · have hmn : m = n := by
          have : (m.key == k) = true := by simp [hk]
          simp [lruFind, List.find?, this] at hf
          exact hf
        subst hmn
        simp [eraseNode, hk, hexp]
      · have hbeq : (m.key == k) = false := beq_eq_false_iff_ne.mpr hk
        have hf' : lruFind k rest = some n := by
          simpa [lruFind, List.find?, hbeq] using hf
        simp only [eraseNode, hk, if_false]
        simp [List.filter, ih hf']

lemma idbLive_delete_expired {α : Type} (now : Nat) (k : String)
    (tbl : List (CachedItem α)) (it : CachedItem α)
    (hf : tbl.find? (fun x => x.key == k) = some it) (hexp : it.expiresAt < now) :
    idbLive now (idbErase k tbl) = idbLive now tbl := by
  induction tbl with
  | nil => simp at hf
  | cons m rest ih =>
      by_cases hk : m.key = k
      · have hmn : m = it := by
          have : (m.key == k) = true := by simp [hk]
          simp [List.find?, this] at hf
          exact hf
        subst hmn
        simp [idbLive, idbErase, hk, hexp, List.filter]
      · have hbeq : (m.key == k) = false := beq_eq_false_iff_ne.mpr hk
        have hf' : rest.find? (fun x => x.key == k) = some it := by
          simpa [List.find?, hbeq] using hf
        simp only [idbErase, hk, if_false, idbLive, List.filter_cons] at ih ⊢
        simp [ih hf']

/-- Frame facts of a getById call that resolves with null: the queue is
untouched, no mutating transport call is added, the memory-cache content
is untouched, and the live contents of the LRU and durable layers are
untouched (only lazily deleted expired records may disappear). -/
lemma getById_none_frame (api : ApiOracle) (now : Nat) (id : String) (s : RepoState)
    (h : (getById api now id s).1 = Except.ok none) :
    (getById api now id s).2.queue = s.queue
    ∧ (getById api now id s).2.apiLog.filter ApiCall.isMutation =
        s.apiLog.filter ApiCall.isMutation
    ∧ (getById api now id s).2.mem.entries = s.mem.entries
    ∧ lruLive now (getById api now id s).2.lru = lruLive now s.lru
    ∧ idbLive now (getById api now id s).2.idbCache = idbLive now s.idbCache := by
  rcases hm : findVal (userKey id) s.mem.entries with _ | e
  case some => simp [getById, memGet, hm] at h
  rcases hf : lruFind (userKey id) s.lru.list with _ | n
  case some =>
    by_cases hexp : n.entry.expiresAt < now
    case neg => simp [getById, memGet, hm, lruGet, hf, hexp] at h
    case pos =>
      have hliveL : lruLive now
          { s.lru with
              list := eraseNode (userKey id) s.lru.list,
              misses := s.lru.misses + 1 } = lruLive now s.lru := by
        simp [lruLive, lruLive_eraseNode_expired now (userKey id) s.lru.list n hf hexp]
      rcases hfi : s.idbCache.find? (fun x => x.key == userKey id) with _ | it
      case some =>
        by_cases hexpi : it.expiresAt < now
        case neg =>
          simp [getById, memGet, hm, lruGet, hf, hexp, idbGetCache, hfi, hexpi] at h
        case pos =>
          have hliveI : idbLive now (idbErase (userKey id) s.idbCache) =
              idbLive now s.idbCache :=
            idbLive_delete_expired now (userKey id) s.idbCache it hfi hexpi
          rcases hon : s.online with _ | _
          case false =>
            simp [getById, memGet, hm, lruGet, hf, hexp, idbGetCache, hfi, hexpi, hon,
              hliveL, hliveI]
          case true =>
            rcases hapi : api.getUser id with msg | dto
            case ok => simp [getById, memGet, hm, lruGet, hf, hexp, idbGetCache, hfi, hexpi,
              hon, hapi] at h
            case error =>
              simp [getById, memGet, hm, lruGet, hf, hexp, idbGetCache, hfi, hexpi, hon,
                hapi, hliveL, hliveI, List.filter_append, ApiCall.isMutation]
      case none =>
        rcases hon : s.online with _ | _
        case false =>
          simp [getById, memGet, hm, lruGet, hf, hexp, idbGetCache, hfi, hon, hliveL]
        case true =>
          rcases hapi : api.getUser id with msg | dto
          case ok => simp [getById, memGet, hm, lruGet, hf, hexp, idbGetCache, hfi, hon,
            hapi] at h
          case error =>
            simp [getById, memGet, hm, lruGet, hf, hexp, idbGetCache, hfi, hon, hapi,
              hliveL, List.filter_append, ApiCall.isMutation]
  case none =>
    rcases hfi : s.idbCache.find? (fun x => x.key == userKey id) with _ | it
    case some =>
      by_cases hexpi : it.expiresAt < now
      case neg =>
        simp [getById, memGet, hm, lruGet, hf, idbGetCache, hfi, hexpi] at h
      case pos =>
        have hliveI : idbLive now (idbErase (userKey id) s.idbCache) =
            idbLive now s.idbCache :=
          idbLive_delete_expired now (userKey id) s.idbCache it hfi hexpi
        rcases hon : s.online with _ | _
        case false =>
          simp [getById, memGet, hm, lruGet, hf, idbGetCache, hfi, hexpi, hon, hliveI,
            lruLive]
        case true =>
          rcases hapi : api.getUser id with msg | dto
          case ok => simp [getById, memGet, hm, lruGet, hf, idbGetCache, hfi, hexpi, hon,
            hapi] at h
          case error =>
            simp [getById, memGet, hm, lruGet, hf, idbGetCache, hfi, hexpi, hon, hapi,
              hliveI, lruLive, List.filter_append, ApiCall.isMutation]
    case none =>
      rcases hon : s.online with _ | _
      case false =>
        simp [getById, memGet, hm, lruGet, hf, idbGetCache, hfi, hon, lruLive]
      case true =>
        rcases hapi : api.getUser id with msg | dto
        case ok => simp [getById, memGet, hm, lruGet, hf, idbGetCache, hfi, hon, hapi] at h
        case error =>
          simp [getById, memGet, hm, lruGet, hf, idbGetCache, hfi, hon, hapi, lruLive,
            List.filter_append, ApiCall.isMutation]

/-- C8 (claim): for an id the read cascade cannot resolve (getById yields
null), update and delete fail with the not-found error before performing
any write: no mutating transport call is issued, the queue gains no
pending mutation, and the (live) content of every cache layer is
unchanged. -/
theorem C8_update_delete_require_resolvable (api : ApiOracle) (now : Nat) (id : String)
    (dto : UpdateDto) (s : RepoState)
    (hnone : (getById api now id s).1 = Except.ok none) :
    ((updateUser api now id dto s).1 = Except.error "User not found"
      ∧ (updateUser api now id dto s).2.queue = s.queue
      ∧ (updateUser api now id dto s).2.apiLog.filter ApiCall.isMutation =
          s.apiLog.filter ApiCall.isMutation
      ∧ (updateUser api now id dto s).2.mem.entries = s.mem.entries
      ∧ lruLive now (updateUser api now id dto s).2.lru = lruLive now s.lru
      ∧ idbLive now (updateUser api now id dto s).2.idbCache = idbLive now s.idbCache)
    ∧ ((deleteUser api now id s).1 = Except.error "User not found"
      ∧ (deleteUser api now id s).2.queue = s.queue
      ∧ (deleteUser api now id s).2.apiLog.filter ApiCall.isMutation =
          s.apiLog.filter ApiCall.isMutation
      ∧ (deleteUser api now id s).2.mem.entries = s.mem.entries
      ∧ lruLive now (deleteUser api now id s).2.lru = lruLive now s.lru
      ∧ idbLive now (deleteUser api now id s).2.idbCache = idbLive now s.idbCache) := by
  have hframe := getById_none_frame api now id s hnone
  rcases hG : getById api now id s with ⟨r, s1⟩
  rw [hG] at hnone
  simp only at hnone
  subst hnone
  rw [hG] at hframe
  have hup : updateUser api now id dto s = (Except.error "User not found", s1) := by
    simp [updateUser, hG]
  have hdel : deleteUser api now id s = (Except.error "User not found", s1) := by
    simp [deleteUser, hG]
  rw [hup, hdel]
  exact ⟨⟨rfl, hframe.1, hframe.2.1, hframe.2.2.1, hframe.2.2.2.1, hframe.2.2.2.2⟩,
    ⟨rfl, hframe.1, hframe.2.1, hframe.2.2.1, hframe.2.2.2.1, hframe.2.2.2.2⟩⟩

/-- Witness for C8 at a fresh offline repository, where no id resolves. -/
theorem C8_update_delete_require_resolvable_witness :
    (getById apiFailNet 5 "9" offRepo).1 = Except.ok none
    ∧ (updateUser apiFailNet 5 "9"
        { email := none, firstName := none, lastName := none, avatar := none }
        offRepo).1 = Except.error "User not found"
    ∧ (deleteUser apiFailNet 5 "9" offRepo).1 = Except.error "User not found"
    ∧ (updateUser apiFailNet 5 "9"
        { email := none, firstName := none, lastName := none, avatar := none }
        offRepo).2.queue = offRepo.queue := by
  have h := C8_update_delete_require_resolvable apiFailNet 5 "9"
    { email := none, firstName := none, lastName := none, avatar := none } offRepo rfl
  exact ⟨rfl, h.1.1, h.2.1, h.1.2.1⟩

-- =============================================================================
-- C3: capacity bound and LRU eviction order of the Bounded TTL Cache
-- =============================================================================

lemma eraseNode_sublist {α : Type} (k : String) (l : List (LRUNodeM α)) :
    (eraseNode k l).Sublist l := by
  induction l with
  | nil => simp [eraseNode]
  | cons n rest ih =>
      by_cases hk : n.key = k
      · simp only [eraseNode, hk, if_true]
        exact (List.sublist_cons_self n rest)
      · simp only [eraseNode, hk, if_false]
        exact ih.cons₂ n

lemma eraseNode_length_of_found {α : Type} (k : String) (l : List (LRUNodeM α))
    (n : LRUNodeM α) (hf : lruFind k l = some n) :
    (eraseNode k l).length + 1 = l.length := by
  induction l with
  | nil => simp [lruFind] at hf
  | cons m rest ih =>
      by_cases hk : m.key = k
      · simp [eraseNode, hk]
      · have hbeq : (m.key == k) = false := beq_eq_false_iff_ne.mpr hk
        have hf' : lruFind k rest = some n := by
          simpa [lruFind, List.find?, hbeq] using hf
        have hih := ih hf'
        simp only [eraseNode, hk, if_false, List.length_cons]
        omega

lemma lruWF_mono {α : Type} (t t' : Nat) (c : LRUCache α) (h : t ≤ t')
    (hwf : lruWF t c) : lruWF t' c := by
  obtain ⟨h1, h2, h3⟩ := hwf
  exact ⟨h1, h2, fun n hn => lt_of_lt_of_le (h3 n hn) h⟩

lemma lruWF_of_list_sublist {α : Type} (t : Nat) (c c' : LRUCache α)
    (hmax : c'.maxSize = c.maxSize) (hsub : c'.list.Sublist c.list)
    (hwf : lruWF t c) : lruWF t c' := by
  obtain ⟨h1, h2, h3⟩ := hwf
  refine ⟨?_, h2.sublist hsub, fun n hn => h3 n (hsub.mem hn)⟩
  rw [hmax]
  exact le_trans hsub.length_le h1

lemma lruWF_cons_node {α : Type} (t t' : Nat) (ht : t < t') (c : LRUCache α)
    (n : LRUNodeM α) (tail : List (LRUNodeM α)) (hla : n.lastAccessed = t)
    (hsub : tail.Sublist c.list) (hlen : tail.length + 1 ≤ c.maxSize)
    (hwf : lruWF t c) :
    (n :: tail).length ≤ c.maxSize
    ∧ (n :: tail).Pairwise (fun a b => b.lastAccessed < a.lastAccessed)
    ∧ ∀ m ∈ n :: tail, m.lastAccessed < t' := by
  obtain ⟨h1, h2, h3⟩ := hwf
  refine ⟨by simpa using hlen, ?_, ?_⟩
  · refine List.pairwise_cons.mpr ⟨?_, h2.sublist hsub⟩
    intro m hm
    rw [hla]
    exact h3 m (hsub.mem hm)
  · intro m hm
    rcases List.mem_cons.mp hm with hm | hm
    · rw [hm, hla]; exact ht
    · exact lt_trans (h3 m (hsub.mem hm)) ht

lemma lruStep_maxSize {α : Type} (t : Nat) (op : LRUOp α) (c : LRUCache α) :
    (lruStep t op c).maxSize = c.maxSize := by
  cases op with
  | get k =>
      rcases hf : lruFind k c.list with _ | n
      · simp [lruStep, lruGet, hf]
      · by_cases hexp : n.entry.expiresAt < t
        · simp [lruStep, lruGet, hf, hexp]
        · simp [lruStep, lruGet, hf, hexp]
  | set k v ttl =>
      rcases hf : lruFind k c.list with _ | n
      · by_cases hcap : c.maxSize ≤ c.list.length
        · simp only [lruStep, lruSet, hf, hcap, if_true]
          rcases hl : c.list.getLast? with _ | m
          · simp [lruEvict, hl]
          · simp [lruEvict, hl]
        · simp [lruStep, lruSet, hf, hcap]
      · simp [lruStep, lruSet, hf]
  | touch k ttl =>
      rcases hf : lruFind k c.list with _ | n
      · simp [lruStep, lruTouch, hf]
      · simp [lruStep, lruTouch, hf]
  | del k =>
      rcases hf : lruFind k c.list with _ | n
      · simp [lruStep, lruDelete, hf]
      · simp [lruStep, lruDelete, hf]

lemma lruWF_step {α : Type} (t t' : Nat) (op : LRUOp α) (c : LRUCache α)
    (hmax : 1 ≤ c.maxSize) (hwf : lruWF t c) (ht : t < t') :
    lruWF t' (lruStep t op c) := by
  have hmono := lruWF_mono t t' c (le_of_lt ht) hwf
  have h1 := hwf.1
  cases op with
  | get k =>
      rcases hf : lruFind k c.list with _ | n
      · simpa [lruStep, lruGet, hf, lruWF] using hmono
      · by_cases hexp : n.entry.expiresAt < t
        · simp only [lruStep, lruGet, hf, hexp, if_true]
          exact lruWF_of_list_sublist t' c
            { c with list := eraseNode k c.list, misses := c.misses + 1 }
            rfl (eraseNode_sublist k c.list) hmono
        · simp only [lruStep, lruGet, hf, hexp, if_false]
          exact lruWF_cons_node t t' ht c { n with lastAccessed := t }
            (eraseNode k c.list) rfl (eraseNode_sublist k c.list)
            (by rw [eraseNode_length_of_found k c.list n hf]; exact h1) hwf
  | set k v ttl =>
      rcases hf : lruFind k c.list with _ | n
      · by_cases hcap : c.maxSize ≤ c.list.length
        · simp only [lruStep, lruSet, hf, hcap, if_true]
          have hne : c.list ≠ [] := by
            intro hnil
            rw [hnil] at hcap
            simp at hcap
            omega
          have hlast : ∃ m, c.list.getLast? = some m := by
            rcases hl : c.list.getLast? with _ | m
            · exact absurd (List.getLast?_eq_none_iff.mp hl) hne
            · exact ⟨m, rfl⟩
          obtain ⟨m, hl⟩ := hlast
          simp only [lruEvict, hl]
          have hlendl : c.list.dropLast.length + 1 = c.list.length := by
            rw [List.length_dropLast]
            omega
          exact lruWF_cons_node t t' ht c
            { key := k,
              entry := { value := v, expiresAt := t + ttl.getD c.defaultTTL, createdAt := t },
              lastAccessed := t }
            c.list.dropLast rfl (List.dropLast_sublist c.list) (by omega) hwf
        · simp only [lruStep, lruSet, hf, hcap, if_false]
          exact lruWF_cons_node t t' ht c
            { key := k,
              entry := { value := v, expiresAt := t + ttl.getD c.defaultTTL, createdAt := t },
              lastAccessed := t }
            c.list rfl (List.Sublist.refl _) (by omega) hwf
      · simp only [lruStep, lruSet, hf]
        exact lruWF_cons_node t t' ht c
          { key := k,
            entry := { value := v, expiresAt := t + ttl.getD c.defaultTTL, createdAt := t },
            lastAccessed := t }
          (eraseNode k c.list) rfl (eraseNode_sublist k c.list)
          (by rw [eraseNode_length_of_found k c.list n hf]; exact h1) hwf
  | touch k ttl =>
      rcases hf : lruFind k c.list with _ | n
      · simpa [lruStep, lruTouch, hf, lruWF] using hmono
      · simp only [lruStep, lruTouch, hf]
        exact lruWF_cons_node t t' ht c
          { n with entry := { n.entry with expiresAt := t + ttl.getD c.defaultTTL },
                   lastAccessed := t }
          (eraseNode k c.list) rfl (eraseNode_sublist k c.list)
          (by rw [eraseNode_length_of_found k c.list n hf]; exact h1) hwf
  | del k =>
      rcases hf : lruFind k c.list with _ | n
      · simpa [lruStep, lruDelete, hf, lruWF] using hmono
      · simp only [lruStep, lruDelete, hf]
        exact lruWF_of_list_sublist t' c
          { c with list := eraseNode k c.list }
          rfl (eraseNode_sublist k c.list) hmono

lemma lruRun_wf {α : Type} (ops : List (Nat × LRUOp α)) (t0 : Nat) (c : LRUCache α)
    (hmax : 1 ≤ c.maxSize) (hwf : lruWF t0 c) (hts : timesOK t0 ops) :
    (∃ t', lruWF t' (lruRun c ops)) ∧ (lruRun c ops).maxSize = c.maxSize := by
  induction ops generalizing t0 c with
  | nil => exact ⟨⟨t0, hwf⟩, rfl⟩
  | cons top rest ih =>
      obtain ⟨t, op⟩ := top
      obtain ⟨ht0, hts'⟩ := hts
      have hwt : lruWF t c := lruWF_mono t0 t c ht0 hwf
      have hstep := lruWF_step t (t + 1) op c hmax hwt (by omega)
      have hms := lruStep_maxSize t op c
      have hmax' : 1 ≤ (lruStep t op c).maxSize := by rw [hms]; exact hmax
      have hrec := ih (t + 1) (lruStep t op c) hmax' hstep hts'
      exact ⟨hrec.1, hrec.2.trans hms⟩

lemma getLast_min_of_pairwise {α : Type} (l : List (LRUNodeM α)) (h : l ≠ [])
    (hp : l.Pairwise (fun a b => b.lastAccessed < a.lastAccessed)) :
    ∀ m ∈ l, (l.getLast h).lastAccessed ≤ m.lastAccessed := by
  induction l with
  | nil => simp at h
  | cons a rest ih =>
      cases rest with
      | nil =>
          intro m hm
          simp at hm
          subst hm
          simp [List.getLast]
      | cons b rest' =>
          have hne : (b :: rest') ≠ [] := by simp
          have hp' := List.pairwise_cons.mp hp
          have hlast : (a :: b :: rest').getLast h = (b :: rest').getLast hne :=
            List.getLast_cons hne
          intro m hm
          rcases List.mem_cons.mp hm with hm | hm
          · subst hm
            have hb := ih hne hp'.2 b (List.mem_cons_self b rest')
            have hab := hp'.1 b (List.mem_cons_self b rest')
            rw [hlast]
            omega
          · rw [hlast]
            exact ih hne hp'.2 m hm

lemma lruSet_evict_shape {α : Type} (now : Nat) (k : String) (v : α) (ttl : Option Nat)
    (c : LRUCache α) (hf : lruFind k c.list = none) (hcap : c.maxSize ≤ c.list.length)
    (hne : c.list ≠ []) :
    (lruSet now k v ttl c).list =
      { key := k,
        entry := { value := v, expiresAt := now + ttl.getD c.defaultTTL, createdAt := now },
        lastAccessed := now } :: c.list.dropLast
    ∧ (lruSet now k v ttl c).evictions = c.evictions + 1 := by
  obtain ⟨m, hl⟩ : ∃ m, c.list.getLast? = some m := by
    rcases hl : c.list.getLast? with _ | m
    · exact absurd (List.getLast?_eq_none_iff.mp hl) hne
    · exact ⟨m, rfl⟩
  constructor
  · simp [lruSet, hf, hcap, lruEvict, hl]
  · simp [lruSet, hf, hcap, lruEvict, hl]

/-- C3 (claim): over every sequence of set, get, touch and delete calls
(at strictly increasing instants) on a Bounded TTL Cache of capacity C at
least 1, the cache never holds more than C entries, live or not; whenever
inserting a new key triggers eviction, the evicted node is the tail of
the recency list, whose last access is minimal among all held entries;
and in the concrete capacity-3 scenario inserting k1,k2,k3, reading k1,
then inserting k4 evicts exactly k2, leaving k4,k1,k3 with size 3. -/
theorem C3_lru_capacity_and_eviction {α : Type} :
    (∀ (c0 : LRUCache α) (t0 tq : Nat) (ops : List (Nat × LRUOp α)),
      1 ≤ c0.maxSize → lruWF t0 c0 → timesOK t0 ops →
      (lruRun c0 ops).list.length ≤ c0.maxSize
      ∧ (lruLive tq (lruRun c0 ops)).length ≤ c0.maxSize)
    ∧ (∀ (t now : Nat) (c : LRUCache α) (k : String) (v : α) (ttl : Option Nat),
        lruWF t c → 1 ≤ c.maxSize →
        lruFind k c.list = none → c.maxSize ≤ c.list.length →
        ∃ hne : c.list ≠ [],
          (lruSet now k v ttl c).list =
            { key := k,
              entry := { value := v, expiresAt := now + ttl.getD c.defaultTTL,
                         createdAt := now },
              lastAccessed := now } :: c.list.dropLast
          ∧ (lruSet now k v ttl c).evictions = c.evictions + 1
          ∧ (lruSet now k v ttl c).list.length = c.list.length
          ∧ ∀ m ∈ c.list, (c.list.getLast hne).lastAccessed ≤ m.lastAccessed)
    ∧ ((lruRun (LRUCache.empty Nat 3 300000)
          [(1, LRUOp.set "k1" 10 none), (2, LRUOp.set "k2" 20 none),
           (3, LRUOp.set "k3" 30 none), (4, LRUOp.get "k1"),
           (5, LRUOp.set "k4" 40 none)]).list.map (fun n => n.key) = ["k4", "k1", "k3"]
        ∧ lruFind "k2" (lruRun (LRUCache.empty Nat 3 300000)
            [(1, LRUOp.set "k1" 10 none), (2, LRUOp.set "k2" 20 none),
             (3, LRUOp.set "k3" 30 none), (4, LRUOp.get "k1"),
             (5, LRUOp.set "k4" 40 none)]).list = none
        ∧ (lruRun (LRUCache.empty Nat 3 300000)
            [(1, LRUOp.set "k1" 10 none), (2, LRUOp.set "k2" 20 none),
             (3, LRUOp.set "k3" 30 none), (4, LRUOp.get "k1"),
             (5, LRUOp.set "k4" 40 none)]).list.length = 3
        ∧ (lruRun (LRUCache.empty Nat 3 300000)
            [(1, LRUOp.set "k1" 10 none), (2, LRUOp.set "k2" 20 none),
             (3, LRUOp.set "k3" 30 none), (4, LRUOp.get "k1"),
             (5, LRUOp.set "k4" 40 none)]).evictions = 1) := by
  refine ⟨?_, ?_, by decide⟩
  · intro c0 t0 tq ops hmax hwf hts
    obtain ⟨⟨t', hwf'⟩, hms⟩ := lruRun_wf ops t0 c0 hmax hwf hts
    have hlen : (lruRun c0 ops).list.length ≤ c0.maxSize := by
      rw [← hms]
      exact hwf'.1
    refine ⟨hlen, le_trans ?_ hlen⟩
    exact List.length_filter_le _ _
  · intro t now c k v ttl hwf hmax hf hcap
    have hne : c.list ≠ [] := by
      intro hnil
      rw [hnil] at hcap
      simp at hcap
      omega
    obtain ⟨hshape, hev⟩ := lruSet_evict_shape now k v ttl c hf hcap hne
    refine ⟨hne, hshape, hev, ?_, getLast_min_of_pairwise c.list hne hwf.2.1⟩
    rw [hshape]
    simp only [List.length_cons, List.length_dropLast]
    have : 1 ≤ c.list.length := by
      cases hcl : c.list with
      | nil => exact absurd hcl hne
      | cons a l => simp
    omega

/-- Witness for C3: the capacity bound on the concrete five-operation
trace, and the eviction characterisation at the state just before k4 is
inserted. -/
theorem C3_lru_capacity_and_eviction_witness :
    (1 ≤ (LRUCache.empty Nat 3 300000).maxSize
      ∧ lruWF 0 (LRUCache.empty Nat 3 300000)
      ∧ timesOK 0 [(1, LRUOp.set "k1" 10 none), (2, LRUOp.set "k2" 20 none),
           (3, LRUOp.set "k3" 30 none), (4, LRUOp.get "k1"),
           (5, LRUOp.set "k4" (40 : Nat) none)]
      ∧ (lruRun (LRUCache.empty Nat 3 300000)
          [(1, LRUOp.set "k1" 10 none), (2, LRUOp.set "k2" 20 none),
           (3, LRUOp.set "k3" 30 none), (4, LRUOp.get "k1"),
           (5, LRUOp.set "k4" 40 none)]).list.length ≤ 3)
    ∧ (lruWF 5 (lruRun (LRUCache.empty Nat 3 300000)
          [(1, LRUOp.set "k1" 10 none), (2, LRUOp.set "k2" 20 none),
           (3, LRUOp.set "k3" 30 none), (4, LRUOp.get "k1")])
      ∧ ∀ m ∈ (lruRun (LRUCache.empty Nat 3 300000)
          [(1, LRUOp.set "k1" 10 none), (2, LRUOp.set "k2" 20 none),
           (3, LRUOp.set "k3" 30 none), (4, LRUOp.get "k1")]).list,
          ((lruRun (LRUCache.empty Nat 3 300000)
            [(1, LRUOp.set "k1" 10 none), (2, LRUOp.set "k2" 20 none),
             (3, LRUOp.set "k3" 30 none), (4, LRUOp.get "k1")]).list.getLast
            (by decide)).lastAccessed ≤ m.lastAccessed) := by
  constructor
  · refine ⟨by decide, by decide, by decide, ?_⟩
    exact ((C3_lru_capacity_and_eviction.1 (LRUCache.empty Nat 3 300000) 0 9
      [(1, LRUOp.set "k1" 10 none), (2, LRUOp.set "k2" 20 none),
       (3, LRUOp.set "k3" 30 none), (4, LRUOp.get "k1"),
       (5, LRUOp.set "k4" 40 none)] (by decide) (by decide) (by decide)).1)
  · refine ⟨by decide, ?_⟩
    have h := C3_lru_capacity_and_eviction.2.1 5 5
      (lruRun (LRUCache.empty Nat 3 300000)
        [(1, LRUOp.set "k1" 10 none), (2, LRUOp.set "k2" 20 none),
         (3, LRUOp.set "k3" 30 none), (4, LRUOp.get "k1")])
      "k4" 40 none (by decide) (by decide) (by decide) (by decide)
    obtain ⟨hne, _, _, _, hmin⟩ := h
    exact hmin

-- =============================================================================
-- Queue processing: characterisation lemmas shared by C2, C5 and C10
-- =============================================================================

lemma applyPatch_id {π : Type} (p : OpPatch) (o : PendingOp π) :
    (applyPatch p o).id = o.id := rfl

lemma opOutcome_id {π : Type} (act : PendingOp π → Option (Except String Unit))
    (o o' : PendingOp π) (h : opOutcome act o = some o') : o'.id = o.id := by
  unfold opOutcome at h
  rcases hact : act o with _ | res
  · rw [hact] at h
    simp at h
    rw [← h]
  · rcases res with msg | v
    · rw [hact] at h
      simp at h
      rw [← h]
      rfl
    · rw [hact] at h
      simp at h

lemma insertByTs_perm {π : Type} (x : PendingOp π) (l : List (PendingOp π)) :
    (insertByTs x l).Perm (x :: l) := by
  induction l with
  | nil => simp [insertByTs]
  | cons y rest ih =>
      by_cases hle : x.timestamp ≤ y.timestamp
      · simp [insertByTs, hle]
      · simp only [insertByTs, hle, if_false]
        exact (ih.cons y).trans (List.Perm.swap x y rest)

lemma sortByTs_perm {π : Type} (l : List (PendingOp π)) : (sortByTs l).Perm l := by
  induction l with
  | nil => simp [sortByTs]
  | cons x rest ih =>
      exact (insertByTs_perm x (sortByTs rest)).trans (ih.cons x)

lemma mem_sortByTs {π : Type} (o : PendingOp π) (l : List (PendingOp π)) :
    o ∈ sortByTs l ↔ o ∈ l :=
  (sortByTs_perm l).mem_iff

lemma insertByTs_sorted {π : Type} (x : PendingOp π) (l : List (PendingOp π))
    (hs : l.Pairwise (fun a b => a.timestamp ≤ b.timestamp)) :
    (insertByTs x l).Pairwise (fun a b => a.timestamp ≤ b.timestamp) := by
  induction l with
  | nil => simp [insertByTs]
  | cons y rest ih =>
      obtain ⟨hy, hrest⟩ := List.pairwise_cons.mp hs
      by_cases hle : x.timestamp ≤ y.timestamp
      · simp only [insertByTs, hle, if_true]
        refine List.pairwise_cons.mpr ⟨?_, hs⟩
        intro z hz
        rcases List.mem_cons.mp hz with hz | hz
        · rw [hz]; exact hle
        · exact le_trans hle (hy z hz)
      · simp only [insertByTs, hle, if_false]
        refine List.pairwise_cons.mpr ⟨?_, ih hrest⟩
        intro z hz
        rcases List.mem_cons.mp ((insertByTs_perm x rest).mem_iff.mp hz) with hz | hz
        · rw [hz]; omega
        · exact hy z hz

lemma sortByTs_sorted {π : Type} (l : List (PendingOp π)) :
    (sortByTs l).Pairwise (fun a b => a.timestamp ≤ b.timestamp) := by
  induction l with
  | nil => simp [sortByTs]
  | cons x rest ih => exact insertByTs_sorted x (sortByTs rest) ih

/-- getPendingOperations fetches exactly the pending operations, sorted
by creation timestamp, oldest first. -/
lemma getPendingOperations_spec {π : Type} (q : List (PendingOp π)) :
    (getPendingOperations q).Perm (q.filter (fun o => o.status = OpStatus.pending))
    ∧ (getPendingOperations q).Pairwise (fun a b => a.timestamp ≤ b.timestamp)
    ∧ ∀ o ∈ getPendingOperations q, o.status = OpStatus.pending := by
  refine ⟨sortByTs_perm _, sortByTs_sorted _, ?_⟩
  intro o ho
  have := List.mem_of_mem_filter ((mem_sortByTs o _).mp ho)
  have hmem := (mem_sortByTs o _).mp ho
  have := List.of_mem_filter hmem
  simpa using this

lemma nodup_id_eq {π : Type} (q : List (PendingOp π))
    (hnd : (q.map (fun o => o.id)).Nodup) (a b : PendingOp π)
    (ha : a ∈ q) (hb : b ∈ q) (hid : a.id = b.id) : a = b :=
  List.inj_on_of_nodup_map hnd ha hb hid

lemma deleteOp_eq_filterMap {π : Type} (i : Nat) (q : List (PendingOp π)) :
    deleteOp i q = q.filterMap (fun o => if o.id = i then none else some o) := by
  induction q with
  | nil => simp [deleteOp]
  | cons o rest ih =>
      simp only [deleteOp, ne_eq, decide_not] at ih ⊢
      by_cases hi : o.id = i
      · simp [List.filter_cons, List.filterMap_cons, hi, ih]
      · simp [List.filter_cons, List.filterMap_cons, hi, ih]

lemma deleteOp_updateOp {π : Type} (i : Nat) (p : OpPatch) (q : List (PendingOp π)) :
    deleteOp i (updateOp i p q) =
      q.filterMap (fun o => if o.id = i then none else some o) := by
  rw [deleteOp_eq_filterMap]
  unfold updateOp
  rw [List.filterMap_map]
  apply List.filterMap_congr
  intro o _
  by_cases hi : o.id = i
  · simp [Function.comp, hi, applyPatch_id]
  · simp [Function.comp, hi]

lemma updateOp_updateOp {π : Type} (i : Nat) (p1 p2 : OpPatch) (q : List (PendingOp π)) :
    updateOp i p2 (updateOp i p1 q) =
      q.map (fun o => if o.id = i then applyPatch p2 (applyPatch p1 o) else o) := by
  unfold updateOp
  rw [List.map_map]
  apply List.map_congr_left
  intro o _
  by_cases hi : o.id = i
  · simp [Function.comp, hi, applyPatch_id]
  · simp [Function.comp, hi]

lemma processOne_queue {π : Type} (act : PendingOp π → Option (Except String Unit))
    (op : PendingOp π) (q : List (PendingOp π)) (hmem : op ∈ q)
    (hnd : (q.map (fun o => o.id)).Nodup) :
    (processOne act op q).1 =
      q.filterMap (fun o => if o.id = op.id then opOutcome act o else some o) := by
  have hpt : ∀ o ∈ q, o.id = op.id → o = op := by
    intro o ho hid
    exact nodup_id_eq q hnd o op ho hmem hid
  rcases hact : act op with _ | res
  · have : ∀ o ∈ q, (if o.id = op.id then opOutcome act o else some o) = some o := by
      intro o ho
      by_cases hid : o.id = op.id
      · rw [hpt o ho hid]
        simp [opOutcome, hact]
      · simp [hid]
    rw [List.filterMap_congr this, List.filterMap_some]
    simp [processOne, hact]
  · rcases res with msg | v
    · have hq : (processOne act op q).1 =
          q.map (fun o => if o.id = op.id then
            applyPatch (failPatch op msg) (applyPatch procPatch o) else o) := by
        simp only [processOne, hact]
        exact updateOp_updateOp op.id procPatch (failPatch op msg) q
      rw [hq, ← List.filterMap_eq_map]
      apply List.filterMap_congr
      intro o ho
      by_cases hid : o.id = op.id
      · rw [hpt o ho hid]
        simp [opOutcome, hact, hid, Function.comp]
      · simp [hid, Function.comp]
    · have hq : (processOne act op q).1 =
          q.filterMap (fun o => if o.id = op.id then none else some o) := by
        simp only [processOne, hact]
        exact deleteOp_updateOp op.id procPatch q
      rw [hq]
      apply List.filterMap_congr
      intro o ho
      by_cases hid : o.id = op.id
      · rw [hpt o ho hid]
        simp [opOutcome, hact, hid]
      · simp [hid]

lemma ids_filterMap_sublist {π : Type} (q : List (PendingOp π))
    (f : PendingOp π → Option (PendingOp π))
    (hpres : ∀ o o', f o = some o' → o'.id = o.id) :
    ((q.filterMap f).map (fun o => o.id)).Sublist (q.map (fun o => o.id)) := by
  induction q with
  | nil => simp
  | cons o rest ih =>
      rcases hf : f o with _ | o'
      · simp only [List.filterMap_cons, hf, List.map_cons]
        exact ih.cons o.id
      · simp only [List.filterMap_cons, hf, List.map_cons]
        rw [hpres o o' hf]
        exact ih.cons₂ o.id

lemma if_outcome_pres {π : Type} (act : PendingOp π → Option (Except String Unit))
    (i : Nat) (o o' : PendingOp π)
    (h : (if o.id = i then opOutcome act o else some o) = some o') : o'.id = o.id := by
  by_cases hid : o.id = i
  · rw [if_pos hid] at h
    exact opOutcome_id act o o' h
  · rw [if_neg hid] at h
    simp at h
    rw [← h]

lemma mem_ids_iff {π : Type} (i : Nat) (l : List (PendingOp π)) :
    i ∈ l.map (fun o => o.id) ↔ ∃ o ∈ l, o.id = i := by
  simp

lemma processOps_queue {π : Type} (act : PendingOp π → Option (Except String Unit))
    (ops : List (PendingOp π)) (q : List (PendingOp π))
    (hsub : ∀ o ∈ ops, o ∈ q)
    (hndq : (q.map (fun o => o.id)).Nodup)
    (hndo : (ops.map (fun o => o.id)).Nodup) :
    (processOps act ops q).1 =
      q.filterMap (fun o =>
        if o.id ∈ ops.map (fun o => o.id) then opOutcome act o else some o) := by
  induction ops generalizing q with
  | nil =>
      simp only [processOps]
      have : ∀ o ∈ q, (if o.id ∈ ([] : List (PendingOp π)).map (fun o => o.id)
          then opOutcome act o else some o) = some o := by
        intro o _
        simp
      rw [List.filterMap_congr this, List.filterMap_some]
  | cons op rest ih =>
      have hmem : op ∈ q := hsub op (List.mem_cons_self op rest)
      have hndo' : (rest.map (fun o => o.id)).Nodup := (List.nodup_cons.mp hndo).2
      have hopnotin : op.id ∉ rest.map (fun o => o.id) := (List.nodup_cons.mp hndo).1
      rcases hp : processOne act op q with ⟨q1, s1, f1, w1⟩
      have hq1 : q1 = q.filterMap
          (fun o => if o.id = op.id then opOutcome act o else some o) := by
        have := processOne_queue act op q hmem hndq
        rw [hp] at this
        exact this
      have hsub1 : ∀ o ∈ rest, o ∈ q1 := by
        intro o ho
        rw [hq1]
        apply List.mem_filterMap.mpr
        refine ⟨o, hsub o (List.mem_cons_of_mem op ho), ?_⟩
        have hne : o.id ≠ op.id := by
          intro heq
          exact hopnotin (heq ▸ (mem_ids_iff op.id rest).mpr ⟨o, ho, heq⟩)
        simp [hne]
      have hnd1 : (q1.map (fun o => o.id)).Nodup := by
        rw [hq1]
        exact (ids_filterMap_sublist q _ (if_outcome_pres act op.id)).nodup hndq
      have hrec := ih q1 hsub1 hnd1 hndo'
      have hstep : (processOps act (op :: rest) q).1 = (processOps act rest q1).1 := by
        simp only [processOps, hp]
      rw [hstep, hrec, hq1, List.filterMap_filterMap]
      apply List.filterMap_congr
      intro o _
      by_cases hid : o.id = op.id
      · have hin : o.id ∈ (op :: rest).map (fun x => x.id) := by simp [hid]
        rw [if_pos hid, if_pos hin]
        rcases hout : opOutcome act o with _ | o'
        · rfl
        · have hnin : o'.id ∉ rest.map (fun x => x.id) := by
            rw [opOutcome_id act o o' hout, hid]
            exact hopnotin
          simp only [Option.some_bind]
          rw [if_neg hnin]
      · rw [if_neg hid]
        simp only [Option.some_bind]
        by_cases hmem2 : o.id ∈ rest.map (fun x => x.id)
        · rw [if_pos hmem2, if_pos (by simp [hmem2])]
        · rw [if_neg hmem2, if_neg (by simp [hid, hmem2])]

lemma processOne_counters {π : Type} (act : PendingOp π → Option (Except String Unit))
    (op : PendingOp π) (q : List (PendingOp π)) :
    (processOne act op q).2.1 = (if actSynced act op then 1 else 0)
    ∧ (processOne act op q).2.2.1 = (if actFailedOut act op then 1 else 0)
    ∧ (processOne act op q).2.2.2 = opWrites act op := by
  rcases hact : act op with _ | res
  · simp [processOne, hact, actSynced, actFailedOut, opWrites]
  · rcases res with msg | v
    · by_cases hb : op.maxRetries ≤ op.retries + 1
      · simp [processOne, hact, actSynced, actFailedOut, opWrites, hb]
      · simp [processOne, hact, actSynced, actFailedOut, opWrites, hb]
    · simp [processOne, hact, actSynced, actFailedOut, opWrites]

lemma processOps_counters {π : Type} (act : PendingOp π → Option (Except String Unit))
    (ops : List (PendingOp π)) (q : List (PendingOp π)) :
    (processOps act ops q).2.1 = (ops.filter (actSynced act)).length
    ∧ (processOps act ops q).2.2.1 = (ops.filter (actFailedOut act)).length
    ∧ (processOps act ops q).2.2.2 = ops.flatMap (opWrites act) := by
  induction ops generalizing q with
  | nil => simp [processOps]
  | cons op rest ih =>
      rcases hp : processOne act op q with ⟨q1, s1, f1, w1⟩
      have hone := processOne_counters act op q
      rw [hp] at hone
      simp only at hone
      obtain ⟨hs1, hf1, hw1⟩ := hone
      rcases hps : processOps act rest q1 with ⟨q2, s2, f2, w2⟩
      have hrec := ih q1
      rw [hps] at hrec
      simp only at hrec
      obtain ⟨hs2, hf2, hw2⟩ := hrec
      have hstep : processOps act (op :: rest) q = (q2, s1 + s2, f1 + f2, w1 ++ w2) := by
        simp only [processOps, hp, hps]
      rw [hstep]
      refine ⟨?_, ?_, ?_⟩
      · simp only [List.filter_cons]
        by_cases hsync : actSynced act op
        · simp [hsync, hs2] at hs1 ⊢
          omega
        · simp [hsync, hs2] at hs1 ⊢
          omega
      · simp only [List.filter_cons]
        by_cases hfail : actFailedOut act op
        · simp [hfail, hf2] at hf1 ⊢
          omega
        · simp [hfail, hf2] at hf1 ⊢
          omega
      · simp [List.flatMap_cons, hw1, hw2]

lemma status_outcome_pres {π : Type} (act : PendingOp π → Option (Except String Unit))
    (o o' : PendingOp π)
    (h : (if o.status = OpStatus.pending then opOutcome act o else some o) = some o') :
    o'.id = o.id := by
  by_cases hs : o.status = OpStatus.pending
  · rw [if_pos hs] at h
    exact opOutcome_id act o o' h
  · rw [if_neg hs] at h
    simp at h
    rw [← h]

/-- The queue left by one engine drain, described pointwise: pending
operations receive their outcome (skipped, deleted or patched), all
other operations are untouched. -/
lemma engineDrain_queue_char {π : Type} (H : String → Option (SyncHandlers π))
    (q : List (PendingOp π)) (hnd : (q.map (fun o => o.id)).Nodup) :
    (engineDrainQueue H q).1 = q.filterMap (fun o =>
      if o.status = OpStatus.pending then opOutcome (engineAct H) o else some o) := by
  have hperm := (getPendingOperations_spec q).1
  have hpend := (getPendingOperations_spec q).2.2
  have hsub : ∀ o ∈ getPendingOperations q, o ∈ q := by
    intro o ho
    exact List.mem_of_mem_filter (hperm.mem_iff.mp ho)
  have hndsel : ((getPendingOperations q).map (fun o => o.id)).Nodup := by
    have hpermids := hperm.map (fun o => o.id)
    have hsubids : ((q.filter (fun o => o.status = OpStatus.pending)).map
        (fun o => o.id)).Sublist (q.map (fun o => o.id)) :=
      (List.filter_sublist q).map _
    exact hpermids.nodup_iff.mpr (hsubids.nodup hnd)
  rw [engineDrainQueue, processOps_queue (engineAct H) (getPendingOperations q) q
    hsub hnd hndsel]
  apply List.filterMap_congr
  intro o ho
  by_cases hp : o.status = OpStatus.pending
  · have hin : o.id ∈ (getPendingOperations q).map (fun o => o.id) := by
      apply (mem_ids_iff _ _).mpr
      refine ⟨o, ?_, rfl⟩
      rw [hperm.mem_iff]
      exact List.mem_filter.mpr ⟨ho, by simp [hp]⟩
    rw [if_pos hin, if_pos hp]
  · have hnin : o.id ∉ (getPendingOperations q).map (fun o => o.id) := by
      intro hin
      obtain ⟨p, hpmem, hpid⟩ := (mem_ids_iff _ _).mp hin
      have hppend := hpend p hpmem
      have : p = o := nodup_id_eq q hnd p o (hsub p hpmem) ho hpid
      rw [this] at hppend
      exact hp hppend
    rw [if_neg hnin, if_neg hp]

/-- The net record a failed handler leaves: attempts incremented, failed
once the incremented count reaches the budget, else back to pending. -/
lemma netFail_spec {π : Type} (o : PendingOp π) (msg : String) :
    applyPatch (failPatch o msg) (applyPatch procPatch o) =
      if o.maxRetries ≤ o.retries + 1 then
        { o with status := OpStatus.failed, retries := o.retries + 1, error := some msg }
      else
        { o with status := OpStatus.pending, retries := o.retries + 1 } := by
  by_cases hb : o.maxRetries ≤ o.retries + 1
  · simp [applyPatch, failPatch, procPatch, hb]
  · simp [applyPatch, failPatch, procPatch, hb]

/-- Unfolding of OfflineSyncService.sync when it actually runs (not
already syncing, online). -/
lemma syncDrain_run {π : Type} (H : String → Option (SyncHandlers π))
    (st : SyncState π) (hst : st.status ≠ SyncStatus.syncing) :
    (syncDrain H true st).queue = (engineDrainQueue H st.queue).1
    ∧ (syncDrain H true st).syncedCount = st.syncedCount + (engineDrainQueue H st.queue).2.1
    ∧ (syncDrain H true st).failedCount =
        st.failedCount + (engineDrainQueue H st.queue).2.2.1
    ∧ (syncDrain H true st).status = SyncStatus.success := by
  rcases he : engineDrainQueue H st.queue with ⟨q', ds, df, w⟩
  have hif : (st.status = SyncStatus.syncing) = False := by
    simp [hst]
  refine ⟨?_, ?_, ?_, ?_⟩ <;> simp [syncDrain, hif, he]

/-- A drain with an always-succeeding registered handler over an
all-pending queue deletes every operation and counts every one of them
as synced. -/
lemma drain_all_success {π : Type} (H : String → Option (SyncHandlers π))
    (q : List (PendingOp π)) (hnd : (q.map (fun o => o.id)).Nodup)
    (hall : ∀ o ∈ q, o.status = OpStatus.pending)
    (hhand : ∀ o ∈ q, engineAct H o = some (Except.ok ())) :
    (engineDrainQueue H q).1 = [] ∧ (engineDrainQueue H q).2.1 = q.length := by
  constructor
  · rw [engineDrain_queue_char H q hnd]
    have : ∀ o ∈ q, (if o.status = OpStatus.pending then opOutcome (engineAct H) o
        else some o) = none := by
      intro o ho
      rw [if_pos (hall o ho)]
      simp [opOutcome, hhand o ho]
    induction q with
    | nil => simp
    | cons o rest ih =>
        rw [List.filterMap_cons, this o (List.mem_cons_self o rest)]
        exact ih ((List.nodup_cons.mp ((List.map_cons _ o rest) ▸ hnd)).2)
          (fun p hp => hall p (List.mem_cons_of_mem o hp))
          (fun p hp => hhand p (List.mem_cons_of_mem o hp))
          (fun p hp => this p (List.mem_cons_of_mem o hp))
  · have hc := (processOps_counters (engineAct H) (getPendingOperations q) q).1
    rw [engineDrainQueue, hc]
    have hfilt : (getPendingOperations q).filter (actSynced (engineAct H)) =
        getPendingOperations q := by
      apply List.filter_eq_self.mpr
      intro o ho
      have hoq : o ∈ q :=
        List.mem_of_mem_filter (((getPendingOperations_spec q).1).mem_iff.mp ho)
      simp [actSynced, hhand o hoq]
    rw [hfilt]
    have hfl : q.filter (fun o => o.status = OpStatus.pending) = q :=
      List.filter_eq_self.mpr (fun o ho => by simp [hall o ho])
    have := ((getPendingOperations_spec q).1).length_eq
    rw [hfl] at this
    exact this

/-- A drain with an always-failing handler over an all-pending queue
patches every operation in place: attempts incremented, status failed
once the budget is reached, else pending again. -/
lemma drain_all_fail {π : Type} (H : String → Option (SyncHandlers π))
    (msgF : PendingOp π → String) (q : List (PendingOp π))
    (hnd : (q.map (fun o => o.id)).Nodup)
    (hall : ∀ o ∈ q, o.status = OpStatus.pending)
    (hhand : ∀ o, engineAct H o = some (Except.error (msgF o))) :
    (engineDrainQueue H q).1 = q.map (fun o =>
      if o.maxRetries ≤ o.retries + 1 then
        { o with status := OpStatus.failed, retries := o.retries + 1,
                 error := some (msgF o) }
      else
        { o with status := OpStatus.pending, retries := o.retries + 1 }) := by
  rw [engineDrain_queue_char H q hnd, ← List.filterMap_eq_map]
  apply List.filterMap_congr
  intro o ho
  rw [if_pos (hall o ho)]
  have : opOutcome (engineAct H) o =
      some (applyPatch (failPatch o (msgF o)) (applyPatch procPatch o)) := by
    simp [opOutcome, hhand o]
  rw [this, netFail_spec]
  rfl

/-- Iterated always-failing drains: starting from uniform retries k with
budget m = k + n (n drains left), after n online drains every operation
is failed with attempts m, and no operation was ever deleted. -/
lemma iterDrain_all_fail {π : Type} (H : String → Option (SyncHandlers π))
    (msgF : PendingOp π → String)
    (hhand : ∀ o, engineAct H o = some (Except.error (msgF o))) :
    ∀ (n k m : Nat), 1 ≤ n → k + n = m →
    ∀ st : SyncState π, st.status ≠ SyncStatus.syncing →
    (st.queue.map (fun o => o.id)).Nodup →
    (∀ o ∈ st.queue, o.status = OpStatus.pending ∧ o.retries = k ∧ o.maxRetries = m) →
    (iterDrain H n st).queue.map (fun o => o.id) = st.queue.map (fun o => o.id)
    ∧ ∀ o ∈ (iterDrain H n st).queue,
        o.status = OpStatus.failed ∧ o.retries = m := by
  intro n
  induction n with
  | zero => intro k m h1 _ _ _ _ _; omega
  | succ n ih =>
      intro k m _ hkm st hst hnd hall
      have hq' := syncDrain_run H st hst
      have hdrain := drain_all_fail H msgF st.queue hnd
        (fun o ho => (hall o ho).1) hhand
      rcases Nat.eq_zero_or_pos n with hn0 | hnpos
      · subst hn0
        have hkm1 : k + 1 = m := by omega
        have hqueue : (syncDrain H true st).queue = st.queue.map (fun o =>
            { o with status := OpStatus.failed, retries := o.retries + 1,
                     error := some (msgF o) }) := by
          rw [hq'.1, hdrain]
          apply List.map_congr_left
          intro o ho
          have hb : o.maxRetries ≤ o.retries + 1 := by
            have := hall o ho
            omega
          rw [if_pos hb]
        constructor
        · show ((syncDrain H true st).queue.map (fun o => o.id)) = _
          rw [hqueue, List.map_map]
          rfl
        · intro o ho
          have ho' : o ∈ (syncDrain H true st).queue := ho
          rw [hqueue] at ho'
          obtain ⟨p, hp, hpo⟩ := List.mem_map.mp ho'
          have := hall p hp
          rw [← hpo]
          constructor
          · rfl
          · show p.retries + 1 = m
            omega
      · have hkm1 : (k + 1) + n = m := by omega
        have hlt : k + 1 < m := by omega
        have hqueue : (syncDrain H true st).queue = st.queue.map (fun o =>
            { o with status := OpStatus.pending, retries := o.retries + 1 }) := by
          rw [hq'.1, hdrain]
          apply List.map_congr_left
          intro o ho
          have hb : ¬ o.maxRetries ≤ o.retries + 1 := by
            have := hall o ho
            omega
          rw [if_neg hb]
        have hnd' : ((syncDrain H true st).queue.map (fun o => o.id)).Nodup := by
          rw [hqueue, List.map_map]
          exact hnd
        have hall' : ∀ o ∈ (syncDrain H true st).queue,
            o.status = OpStatus.pending ∧ o.retries = k + 1 ∧ o.maxRetries = m := by
          intro o ho
          rw [hqueue] at ho
          obtain ⟨p, hp, hpo⟩ := List.mem_map.mp ho
          have := hall p hp
          rw [← hpo]
          refine ⟨rfl, ?_, ?_⟩
          · show p.retries + 1 = k + 1
            omega
          · show p.maxRetries = m
            omega
        have hst' : (syncDrain H true st).status ≠ SyncStatus.syncing := by
          rw [hq'.2.2.2]
          intro hcontra
          exact SyncStatus.noConfusion hcontra
        have hrec := ih (k + 1) m hnpos hkm1 (syncDrain H true st) hst' hnd' hall'
        have hids : (syncDrain H true st).queue.map (fun o => o.id) =
            st.queue.map (fun o => o.id) := by
          rw [hqueue, List.map_map]
          rfl
        refine ⟨?_, ?_⟩
        · show (iterDrain H n (syncDrain H true st)).queue.map (fun o => o.id) = _
          rw [hrec.1, hids]
        · intro o ho
          exact hrec.2 o ho

/-- C2 (claim): a sync drain fetches exactly the pending operations,
oldest first, and processes each in that order: with a registered
handler, success deletes the operation and counts one synced; failure
increments attempts and marks failed exactly when the incremented count
reaches maxAttempts, else reverts to pending; hence an all-success drain
empties an all-pending queue adding its length to the synced counter,
and an always-failing handler leaves every operation failed, never
deleted, after maxAttempts drains. -/
theorem C2_sync_drain_behaviour {π : Type} :
    (∀ q : List (PendingOp π),
      (getPendingOperations q).Perm
        (q.filter (fun o => o.status = OpStatus.pending))
      ∧ (getPendingOperations q).Pairwise (fun a b => a.timestamp ≤ b.timestamp)
      ∧ ∀ o ∈ getPendingOperations q, o.status = OpStatus.pending)
    ∧ (∀ (H : String → Option (SyncHandlers π)) (h : SyncHandlers π)
         (op : PendingOp π) (q : List (PendingOp π)),
        H op.entity = some h → op ∈ q → (q.map (fun o => o.id)).Nodup →
        ((∀ v, runHandler h op = Except.ok v →
          (processOne (engineAct H) op q).1 =
            q.filterMap (fun o => if o.id = op.id then none else some o)
          ∧ (processOne (engineAct H) op q).2.1 = 1
          ∧ (processOne (engineAct H) op q).2.2.2 =
              [QueueWrite.wUpd op.id procPatch, QueueWrite.wDel op.id])
        ∧ (∀ msg, runHandler h op = Except.error msg →
          (processOne (engineAct H) op q).1 =
            q.map (fun o => if o.id = op.id then
              (if op.maxRetries ≤ op.retries + 1 then
                { op with status := OpStatus.failed, retries := op.retries + 1,
                          error := some msg }
              else
                { op with status := OpStatus.pending, retries := op.retries + 1 })
              else o)
          ∧ (processOne (engineAct H) op q).2.1 = 0
          ∧ (processOne (engineAct H) op q).2.2.1 =
              (if op.maxRetries ≤ op.retries + 1 then 1 else 0)
          ∧ (processOne (engineAct H) op q).2.2.2 =
              [QueueWrite.wUpd op.id procPatch,
               QueueWrite.wUpd op.id (failPatch op msg)])))
    ∧ (∀ (H : String → Option (SyncHandlers π)) (h : SyncHandlers π)
         (st : SyncState π),
        st.status ≠ SyncStatus.syncing →
        (st.queue.map (fun o => o.id)).Nodup →
        (∀ o ∈ st.queue, o.status = OpStatus.pending) →
        (∀ o ∈ st.queue, H o.entity = some h) →
        (∀ o, runHandler h o = Except.ok ()) →
        (syncDrain H true st).queue = []
        ∧ (syncDrain H true st).syncedCount = st.syncedCount + st.queue.length)
    ∧ (∀ (H : String → Option (SyncHandlers π)) (msgF : PendingOp π → String)
         (m : Nat) (st : SyncState π),
        1 ≤ m → st.status ≠ SyncStatus.syncing →
        (st.queue.map (fun o => o.id)).Nodup →
        (∀ o ∈ st.queue, o.status = OpStatus.pending ∧ o.retries = 0
          ∧ o.maxRetries = m) →
        (∀ o, engineAct H o = some (Except.error (msgF o))) →
        (iterDrain H m st).queue.map (fun o => o.id) = st.queue.map (fun o => o.id)
        ∧ ∀ o ∈ (iterDrain H m st).queue,
            o.status = OpStatus.failed ∧ o.retries = m) := by
  refine ⟨getPendingOperations_spec, ?_, ?_, ?_⟩
  · intro H h op q hH hmem hnd
    have hact : engineAct H op = some (runHandler h op) := by
      simp [engineAct, hH]
    constructor
    · intro v hok
      have hact' : engineAct H op = some (Except.ok v) := by rw [hact, hok]
      have hcnt := processOne_counters (engineAct H) op q
      refine ⟨?_, ?_, ?_⟩
      · simp only [processOne, hact']
        exact deleteOp_updateOp op.id procPatch q
      · rw [hcnt.1]
        simp [actSynced, hact']
      · rw [hcnt.2.2]
        simp [opWrites, hact']
    · intro msg herr
      have hact' : engineAct H op = some (Except.error msg) := by rw [hact, herr]
      have hcnt := processOne_counters (engineAct H) op q
      refine ⟨?_, ?_, ?_, ?_⟩
      · have hq : (processOne (engineAct H) op q).1 =
            q.map (fun o => if o.id = op.id then
              applyPatch (failPatch op msg) (applyPatch procPatch o) else o) := by
          simp only [processOne, hact']
          exact updateOp_updateOp op.id procPatch (failPatch op msg) q
        rw [hq]
        apply List.map_congr_left
        intro o ho
        by_cases hid : o.id = op.id
        · rw [if_pos hid, if_pos hid, nodup_id_eq q hnd o op ho hmem hid, netFail_spec]
        · rw [if_neg hid, if_neg hid]
      · rw [hcnt.1]
        simp [actSynced, hact']
      · rw [hcnt.2.1]
        simp [actFailedOut, hact']
      · rw [hcnt.2.2]
        simp [opWrites, hact']
  · intro H h st hst hnd hall hreg hok
    have hrun := syncDrain_run H st hst
    have hhand : ∀ o ∈ st.queue, engineAct H o = some (Except.ok ()) := by
      intro o ho
      simp [engineAct, hreg o ho, hok o]
    have hsucc := drain_all_success H st.queue hnd hall hhand
    refine ⟨?_, ?_⟩
    · rw [hrun.1]
      exact hsucc.1
    · rw [hrun.2.1, hsucc.2]
  · intro H msgF m st hm hst hnd hall hhand
    exact iterDrain_all_fail H msgF hhand m 0 m hm (by omega) st hst hnd hall

/-- Witness for C2: the two-operation queue drained once by the
always-succeeding handlers empties with two synced, and three drains of
the always-failing handlers leave both operations failed with three
attempts, never deleted. -/
theorem C2_sync_drain_behaviour_witness :
    ((syncDrain HOk true st0).queue = []
      ∧ (syncDrain HOk true st0).syncedCount = 2)
    ∧ ((iterDrain HBad 3 st0).queue.map (fun o => o.id) = [1, 2]) := by
  have hok : ∀ o : PendingOp Unit, runHandler okHandlers o = Except.ok () := by
    intro o
    rcases ht : o.type with _ | _ | _ <;> simp [runHandler, okHandlers, ht]
  have hbad : ∀ o : PendingOp Unit,
      engineAct HBad o = some (Except.error ((fun _ => "boom") o)) := by
    intro o
    rcases ht : o.type with _ | _ | _ <;> simp [engineAct, HBad, runHandler, badHandlers, ht]
  constructor
  · have h := (C2_sync_drain_behaviour.2.2.1) HOk okHandlers st0 (by decide) (by decide)
      (by decide) (fun o _ => rfl) hok
    exact ⟨h.1, h.2⟩
  · have h := (C2_sync_drain_behaviour.2.2.2) HBad (fun _ => "boom") 3 st0 (by decide)
      (by decide) (by decide) (by decide) hbad
    exact h.1

-- =============================================================================
-- C10: operations whose entity has no registered handler
-- =============================================================================

lemma engineDrain_nodup {π : Type} (H : String → Option (SyncHandlers π))
    (q : List (PendingOp π)) (hnd : (q.map (fun o => o.id)).Nodup) :
    (((engineDrainQueue H q).1).map (fun o => o.id)).Nodup := by
  rw [engineDrain_queue_char H q hnd]
  exact (ids_filterMap_sublist q _ (status_outcome_pres (engineAct H))).nodup hnd

lemma drain_skip_no_handler {π : Type} (H : String → Option (SyncHandlers π))
    (q : List (PendingOp π)) (o : PendingOp π)
    (hnd : (q.map (fun o => o.id)).Nodup) (ho : o ∈ q)
    (hp : o.status = OpStatus.pending) (hH : H o.entity = none) :
    o ∈ (engineDrainQueue H q).1
    ∧ o ∈ getPendingOperations q
    ∧ ∀ w ∈ (engineDrainQueue H q).2.2.2, w.targetId ≠ o.id := by
  refine ⟨?_, ?_, ?_⟩
  · rw [engineDrain_queue_char H q hnd]
    apply List.mem_filterMap.mpr
    refine ⟨o, ho, ?_⟩
    rw [if_pos hp]
    simp [opOutcome, engineAct, hH]
  · exact (mem_sortByTs o _).mpr (List.mem_filter.mpr ⟨ho, by simp [hp]⟩)
  · intro w hw
    have hwrites := (processOps_counters (engineAct H) (getPendingOperations q) q).2.2
    have hw' : w ∈ (processOps (engineAct H) (getPendingOperations q) q).2.2.2 := hw
    rw [hwrites] at hw'
    obtain ⟨p, hpmem, hwp⟩ := List.mem_flatMap.mp hw'
    have hpq : p ∈ q :=
      List.mem_of_mem_filter (((getPendingOperations_spec q).1).mem_iff.mp hpmem)
    intro heq
    have htarget : w.targetId = p.id := by
      rcases hact : engineAct H p with _ | res
      · rw [opWrites, hact] at hwp
        simp at hwp
      · rcases res with msg | v
        · rw [opWrites, hact] at hwp
          simp at hwp
          rcases hwp with h | h
          · rw [h]; rfl
          · rw [h]; rfl
        · rw [opWrites, hact] at hwp
          simp at hwp
          rcases hwp with h | h
          · rw [h]; rfl
          · rw [h]; rfl
    have hpo : p = o := nodup_id_eq q hnd p o hpq ho (htarget ▸ heq)
    rw [hpo] at hwp
    rw [opWrites] at hwp
    rw [show engineAct H o = none by simp [engineAct, hH]] at hwp
    simp at hwp

/-- C10 (claim): a pending operation whose entity type has no registered
handler is skipped with its record left entirely unchanged by every
drain: it stays in the queue as the very same record (status pending,
attempts untouched), it is re-fetched by every subsequent drain, and no
queue write of any drain ever targets it. -/
theorem C10_missing_handler_skipped {π : Type} (H : String → Option (SyncHandlers π))
    (st : SyncState π) (o : PendingOp π)
    (hst : st.status ≠ SyncStatus.syncing)
    (hnd : (st.queue.map (fun x => x.id)).Nodup)
    (ho : o ∈ st.queue) (hp : o.status = OpStatus.pending)
    (hH : H o.entity = none) :
    ∀ n : Nat,
      o ∈ (iterDrain H n st).queue
      ∧ o ∈ getPendingOperations (iterDrain H n st).queue
      ∧ ∀ w ∈ (engineDrainQueue H (iterDrain H n st).queue).2.2.2,
          w.targetId ≠ o.id := by
  have hstep : ∀ s : SyncState π, s.status ≠ SyncStatus.syncing →
      (s.queue.map (fun x => x.id)).Nodup → o ∈ s.queue →
      o ∈ (syncDrain H true s).queue
      ∧ ((syncDrain H true s).queue.map (fun x => x.id)).Nodup
      ∧ (syncDrain H true s).status ≠ SyncStatus.syncing := by
    intro s hs hsnd hos
    have hrun := syncDrain_run H s hs
    refine ⟨?_, ?_, ?_⟩
    · rw [hrun.1]
      exact (drain_skip_no_handler H s.queue o hsnd hos hp hH).1
    · rw [hrun.1]
      exact engineDrain_nodup H s.queue hsnd
    · rw [hrun.2.2.2]
      intro hcontra
      exact SyncStatus.noConfusion hcontra
  have hinv : ∀ n : Nat, ∀ s : SyncState π,
      s.status ≠ SyncStatus.syncing → (s.queue.map (fun x => x.id)).Nodup →
      o ∈ s.queue →
      o ∈ (iterDrain H n s).queue
      ∧ ((iterDrain H n s).queue.map (fun x => x.id)).Nodup
      ∧ (iterDrain H n s).status ≠ SyncStatus.syncing := by
    intro n
    induction n with
    | zero => exact fun s h1 h2 h3 => ⟨h3, h2, h1⟩
    | succ n ih =>
        intro s h1 h2 h3
        have hs := hstep s h1 h2 h3
        exact ih (syncDrain H true s) hs.2.2 hs.2.1 hs.1
  intro n
  obtain ⟨hoq, hnoq, _⟩ := hinv n st hst hnd ho
  have hsk := drain_skip_no_handler H (iterDrain H n st).queue o hnoq hoq hp hH
  exact ⟨hoq, hsk.2.1, hsk.2.2⟩

/-- Witness for C10: with no handler registered, the first sample
operation survives two drains as the identical record and is still
fetched by the next drain. -/
theorem C10_missing_handler_skipped_witness :
    op1 ∈ (iterDrain HNone 2 st0).queue
    ∧ op1 ∈ getPendingOperations (iterDrain HNone 2 st0).queue := by
  have h := C10_missing_handler_skipped HNone st0 op1 (by decide) (by decide)
    (by decide) rfl rfl 2
  exact ⟨h.1, h.2.1⟩

-- =============================================================================
-- C5: status transitions and monotone attempts over queue histories
-- =============================================================================

lemma gen_outcome_pres {π : Type} (P : PendingOp π → Prop) [DecidablePred P]
    (act : PendingOp π → Option (Except String Unit)) (o o' : PendingOp π)
    (h : (if P o then opOutcome act o else some o) = some o') : o'.id = o.id := by
  by_cases hp : P o
  · rw [if_pos hp] at h
    exact opOutcome_id act o o' h
  · rw [if_neg hp] at h
    simp at h
    rw [← h]

lemma gen_char_mem_inv {π : Type} (P : PendingOp π → Prop) [DecidablePred P]
    (act : PendingOp π → Option (Except String Unit)) (q : List (PendingOp π))
    (o' : PendingOp π)
    (ho' : o' ∈ q.filterMap (fun o => if P o then opOutcome act o else some o)) :
    ∃ o ∈ q, o'.id = o.id ∧ o.retries ≤ o'.retries := by
  obtain ⟨o, ho, hf⟩ := List.mem_filterMap.mp ho'
  refine ⟨o, ho, ?_⟩
  by_cases hp : P o
  · rw [if_pos hp] at hf
    unfold opOutcome at hf
    rcases hact : act o with _ | res
    · rw [hact] at hf
      simp at hf
      rw [← hf]
      exact ⟨rfl, le_refl _⟩
    · rcases res with msg | v
      · rw [hact] at hf
        simp at hf
        rw [← hf, netFail_spec]
        by_cases hb : o.maxRetries ≤ o.retries + 1
        · rw [if_pos hb]
          refine ⟨rfl, ?_⟩
          show o.retries ≤ o.retries + 1
          omega
        · rw [if_neg hb]
          refine ⟨rfl, ?_⟩
          show o.retries ≤ o.retries + 1
          omega
      · rw [hact] at hf
        simp at hf
  · rw [if_neg hp] at hf
    simp at hf
    rw [← hf]
    exact ⟨rfl, le_refl _⟩

lemma gen_char_failed_frozen {π : Type} (P : PendingOp π → Prop) [DecidablePred P]
    (act : PendingOp π → Option (Except String Unit)) (q : List (PendingOp π))
    (o : PendingOp π) (ho : o ∈ q) (hfail : o.status = OpStatus.failed)
    (hP : ∀ p, P p → p.status = OpStatus.pending) :
    o ∈ q.filterMap (fun p => if P p then opOutcome act p else some p) := by
  apply List.mem_filterMap.mpr
  refine ⟨o, ho, ?_⟩
  have hnp : ¬ P o := by
    intro hPo
    rw [hP o hPo] at hfail
    exact OpStatus.noConfusion hfail
  rw [if_neg hnp]

/-- The queue left by one repository replay pass, described pointwise. -/
lemma repoDrain_queue_char {π : Type} (act : PendingOp π → Except String Unit)
    (q : List (PendingOp π)) (hnd : (q.map (fun o => o.id)).Nodup) :
    (processOps (fun o => some (act o)) (getPendingOperationsByEntity "user" q) q).1 =
      q.filterMap (fun o =>
        if o.entity = "user" ∧ o.status = OpStatus.pending
        then opOutcome (fun o => some (act o)) o else some o) := by
  have hsub : ∀ o ∈ getPendingOperationsByEntity "user" q, o ∈ q := by
    intro o ho
    exact List.mem_of_mem_filter ho
  have hndsel : ((getPendingOperationsByEntity "user" q).map (fun o => o.id)).Nodup :=
    ((List.filter_sublist q).map _).nodup hnd
  rw [processOps_queue _ _ _ hsub hnd hndsel]
  apply List.filterMap_congr
  intro o ho
  by_cases hp : o.entity = "user" ∧ o.status = OpStatus.pending
  · have hin : o.id ∈ (getPendingOperationsByEntity "user" q).map (fun o => o.id) := by
      apply (mem_ids_iff _ _).mpr
      exact ⟨o, List.mem_filter.mpr ⟨ho, by simp [hp.1, hp.2]⟩, rfl⟩
    rw [if_pos hin, if_pos hp]
  · have hnin : o.id ∉ (getPendingOperationsByEntity "user" q).map (fun o => o.id) := by
      intro hin
      obtain ⟨p, hpmem, hpid⟩ := (mem_ids_iff _ _).mp hin
      have hpq : p ∈ q := List.mem_of_mem_filter hpmem
      have hpcond := List.of_mem_filter hpmem
      have : p = o := nodup_id_eq q hnd p o hpq ho hpid
      rw [this] at hpcond
      simp at hpcond
      exact hp ⟨hpcond.1, hpcond.2⟩
    rw [if_neg hnin, if_neg hp]

lemma queueStep_wf {π : Type} (ev : QueueEvent π) (s : QueueSt π)
    (hwf : queueWF s) : queueWF (queueStep ev s) := by
  obtain ⟨hnd, hbound⟩ := hwf
  cases ev with
  | qEnqueue now ty e eid p mr =>
      constructor
      · simp only [queueStep, addPendingOp, List.map_append]
        rw [List.nodup_append]
        refine ⟨hnd, List.nodup_singleton _, ?_⟩
        intro a ha
        simp only [List.map_cons, List.map_nil, List.mem_singleton]
        obtain ⟨o, ho, hid⟩ := List.mem_map.mp ha
        have := hbound o ho
        intro hcontra
        rw [hcontra] at hid
        omega
      · intro o ho
        simp only [queueStep, addPendingOp] at ho
        rcases List.mem_append.mp ho with ho | ho
        · have := hbound o ho
          simp only [queueStep, addPendingOp]
          omega
        · simp at ho
          rw [ho]
          simp [queueStep, addPendingOp]
  | qEngineDrain H =>
      have hchar := engineDrain_queue_char H s.q hnd
      rw [engineDrainQueue] at hchar
      constructor
      · show ((processOps (engineAct H) (getPendingOperations s.q) s.q).1.map
            (fun o => o.id)).Nodup
        rw [hchar]
        exact (ids_filterMap_sublist s.q _
          (status_outcome_pres (engineAct H))).nodup hnd
      · intro o' ho'
        have ho'2 : o' ∈ (processOps (engineAct H) (getPendingOperations s.q) s.q).1 :=
          ho'
        rw [hchar] at ho'2
        obtain ⟨o, ho, hid, _⟩ := gen_char_mem_inv
          (fun o => o.status = OpStatus.pending) (engineAct H) s.q o' ho'2
        have := hbound o ho
        show o'.id < s.nextId
        omega
  | qRepoDrain act =>
      have hchar := repoDrain_queue_char act s.q hnd
      constructor
      · show ((processOps (fun o => some (act o))
            (getPendingOperationsByEntity "user" s.q) s.q).1.map (fun o => o.id)).Nodup
        rw [hchar]
        exact (ids_filterMap_sublist s.q _
          (gen_outcome_pres (fun o => o.entity = "user" ∧ o.status = OpStatus.pending)
            (fun o => some (act o)))).nodup hnd
      · intro o' ho'
        have ho'2 : o' ∈ (processOps (fun o => some (act o))
            (getPendingOperationsByEntity "user" s.q) s.q).1 := ho'
        rw [hchar] at ho'2
        obtain ⟨o, ho, hid, _⟩ := gen_char_mem_inv
          (fun o => o.entity = "user" ∧ o.status = OpStatus.pending)
          (fun o => some (act o)) s.q o' ho'2
        have := hbound o ho
        show o'.id < s.nextId
        omega

lemma queueStep_failed_frozen {π : Type} (ev : QueueEvent π) (s : QueueSt π)
    (hwf : queueWF s) (o : PendingOp π) (ho : o ∈ s.q)
    (hfail : o.status = OpStatus.failed) : o ∈ (queueStep ev s).q := by
  cases ev with
  | qEnqueue now ty e eid p mr =>
      simp only [queueStep, addPendingOp]
      exact List.mem_append.mpr (Or.inl ho)
  | qEngineDrain H =>
      have hchar := engineDrain_queue_char H s.q hwf.1
      rw [engineDrainQueue] at hchar
      show o ∈ (processOps (engineAct H) (getPendingOperations s.q) s.q).1
      rw [hchar]
      exact gen_char_failed_frozen (fun p => p.status = OpStatus.pending)
        (engineAct H) s.q o ho hfail (fun p hp => hp)
  | qRepoDrain act =>
      have hchar := repoDrain_queue_char act s.q hwf.1
      show o ∈ (processOps (fun p => some (act p))
          (getPendingOperationsByEntity "user" s.q) s.q).1
      rw [hchar]
      exact gen_char_failed_frozen
        (fun p => p.entity = "user" ∧ p.status = OpStatus.pending)
        (fun p => some (act p)) s.q o ho hfail (fun p hp => hp.2)

lemma queueStep_retries_mono {π : Type} (ev : QueueEvent π) (s : QueueSt π)
    (hwf : queueWF s) (oa ob : PendingOp π) (ha : oa ∈ s.q)
    (hb : ob ∈ (queueStep ev s).q) (hid : oa.id = ob.id) :
    oa.retries ≤ ob.retries := by
  obtain ⟨hnd, hbound⟩ := hwf
  cases ev with
  | qEnqueue now ty e eid p mr =>
      simp only [queueStep, addPendingOp] at hb
      rcases List.mem_append.mp hb with hb | hb
      · rw [nodup_id_eq s.q hnd oa ob ha hb hid]
      · simp at hb
        have := hbound oa ha
        rw [hb] at hid
        simp at hid
        omega
  | qEngineDrain H =>
      have hchar := engineDrain_queue_char H s.q hnd
      rw [engineDrainQueue] at hchar
      have hb2 : ob ∈ (processOps (engineAct H) (getPendingOperations s.q) s.q).1 := hb
      rw [hchar] at hb2
      obtain ⟨o, ho, hid2, hret⟩ := gen_char_mem_inv
        (fun o => o.status = OpStatus.pending) (engineAct H) s.q ob hb2
      have : oa = o := nodup_id_eq s.q hnd oa o ha ho (by omega)
      rw [this]
      exact hret
  | qRepoDrain act =>
      have hchar := repoDrain_queue_char act s.q hnd
      have hb2 : ob ∈ (processOps (fun o => some (act o))
          (getPendingOperationsByEntity "user" s.q) s.q).1 := hb
      rw [hchar] at hb2
      obtain ⟨o, ho, hid2, hret⟩ := gen_char_mem_inv
        (fun o => o.entity = "user" ∧ o.status = OpStatus.pending)
        (fun o => some (act o)) s.q ob hb2
      have : oa = o := nodup_id_eq s.q hnd oa o ha ho (by omega)
      rw [this]
      exact hret

lemma syncOneRepo_queue (api : ApiOracle) (now : Nat) (s : RepoState)
    (op : PendingOp PayloadM) :
    (syncOneRepo api now s op).queue =
      (processOne (fun o => some (repoCall api o)) op s.queue).1 := by
  rcases ht : op.type with _ | _ | _
  · rcases hres : api.postUser (toCreateApiDto op.payload.asCreateD) with msg | rdto
    · simp [syncOneRepo, ht, hres, processOne, repoCall, Except.map]
    · simp [syncOneRepo, ht, hres, processOne, repoCall, Except.map, cacheUser,
        removeFromCache]
  · rcases hres : api.putUser op.entityId (toUpdateApiDto op.payload.asUpdateD)
        with msg | rdto
    · simp [syncOneRepo, ht, hres, processOne, repoCall, Except.map]
    · simp [syncOneRepo, ht, hres, processOne, repoCall, Except.map, cacheUser]
  · rcases hres : api.delUser op.entityId with msg | v
    · simp [syncOneRepo, ht, hres, processOne, repoCall, Except.map]
    · simp [syncOneRepo, ht, hres, processOne, repoCall, Except.map]

lemma foldSync_queue (api : ApiOracle) (now : Nat) :
    ∀ (ops : List (PendingOp PayloadM)) (s : RepoState),
      ((ops.foldl (syncOneRepo api now) s).queue) =
        (processOps (fun o => some (repoCall api o)) ops s.queue).1 := by
  intro ops
  induction ops with
  | nil => intro s; rfl
  | cons op rest ih =>
      intro s
      rcases hp : processOne (fun o => some (repoCall api o)) op s.queue
        with ⟨q1, s1, f1, w1⟩
      have hone := syncOneRepo_queue api now s op
      rw [hp] at hone
      have hfold : (op :: rest).foldl (syncOneRepo api now) s =
          rest.foldl (syncOneRepo api now) (syncOneRepo api now s op) := rfl
      rw [hfold, ih (syncOneRepo api now s op), hone]
      simp only [processOps, hp]

lemma statesAlong_shape {π : Type} (l : List (QueueEvent π)) (s : QueueSt π) :
    ∃ tl, statesAlong s l = s :: tl := by
  cases l with
  | nil => exact ⟨[], rfl⟩
  | cons ev rest => exact ⟨statesAlong (queueStep ev s) rest, rfl⟩

/-- C5 (claim): across every sequence of queue operations of the Sync
Engine and the repository replay path, a failed operation is frozen (it
survives every event as the identical record and is never selected by
either drain), the attempts counter of an operation never decreases from
one state to the next, every operation a drain fetches is pending and
its writes are the processing mark followed by deletion or the single
retry/failed patch, and the actual engine sync and repository replay
either leave the queue alone (guarded) or act as exactly these drains. -/
theorem C5_attempts_monotone_and_failed_terminal {π : Type} (s0 : QueueSt π)
    (evs : List (QueueEvent π)) (hwf : queueWF s0) :
    (∀ o, o ∈ s0.q → o.status = OpStatus.failed →
      ∀ s' ∈ statesAlong s0 evs,
        o ∈ s'.q ∧ o ∉ getPendingOperations s'.q
        ∧ o ∉ getPendingOperationsByEntity "user" s'.q)
    ∧ (statesAlong s0 evs).Chain' (fun a b =>
        ∀ oa ∈ a.q, ∀ ob ∈ b.q, oa.id = ob.id → oa.retries ≤ ob.retries)
    ∧ (∀ (H : String → Option (SyncHandlers π)) (q : List (PendingOp π)),
        (∀ o ∈ getPendingOperations q, o.status = OpStatus.pending)
        ∧ (engineDrainQueue H q).2.2.2 =
            (getPendingOperations q).flatMap (opWrites (engineAct H)))
    ∧ (∀ (H : String → Option (SyncHandlers π)) (onl : Bool) (st : SyncState π),
        (syncDrain H onl st).queue = st.queue ∨
        (syncDrain H onl st).queue =
          (processOps (engineAct H) (getPendingOperations st.queue) st.queue).1)
    ∧ (∀ (api : ApiOracle) (now : Nat) (s : RepoState),
        (syncPendingOperations api now s).queue = s.queue ∨
        (syncPendingOperations api now s).queue =
          (processOps (fun o => some (repoCall api o))
            (getPendingOperationsByEntity "user" s.queue) s.queue).1) := by
  refine ⟨?_, ?_, ?_, ?_, ?_⟩
  · intro o ho hfail
    have haux : ∀ (l : List (QueueEvent π)) (s : QueueSt π), queueWF s → o ∈ s.q →
        ∀ s' ∈ statesAlong s l, o ∈ s'.q := by
      intro l
      induction l with
      | nil =>
          intro s _ hos s' hs'
          simp [statesAlong] at hs'
          rw [hs']
          exact hos
      | cons ev rest ih =>
          intro s hswf hos s' hs'
          rcases List.mem_cons.mp hs' with hs' | hs'
          · rw [hs']
            exact hos
          · exact ih (queueStep ev s) (queueStep_wf ev s hswf)
              (queueStep_failed_frozen ev s hswf o hos hfail) s' hs'
    intro s' hs'
    refine ⟨haux evs s0 hwf ho s' hs', ?_, ?_⟩
    · intro hmem
      have := (getPendingOperations_spec s'.q).2.2 o hmem
      rw [hfail] at this
      exact OpStatus.noConfusion this
    · intro hmem
      have := List.of_mem_filter hmem
      simp at this
      rw [hfail] at this
      exact OpStatus.noConfusion this.2
  · have haux : ∀ (l : List (QueueEvent π)) (s : QueueSt π), queueWF s →
        (statesAlong s l).Chain' (fun a b =>
          ∀ oa ∈ a.q, ∀ ob ∈ b.q, oa.id = ob.id → oa.retries ≤ ob.retries) := by
      intro l
      induction l with
      | nil =>
          intro s _
          simp [statesAlong]
      | cons ev rest ih =>
          intro s hswf
          obtain ⟨tl, htl⟩ := statesAlong_shape rest (queueStep ev s)
          show List.Chain' _ (s :: statesAlong (queueStep ev s) rest)
          rw [htl]
          refine List.chain'_cons.mpr ⟨?_, ?_⟩
          · intro oa ha ob hb hid
            exact queueStep_retries_mono ev s hswf oa ob ha hb hid
          · rw [← htl]
            exact ih (queueStep ev s) (queueStep_wf ev s hswf)
    exact haux evs s0 hwf
  · intro H q
    exact ⟨(getPendingOperations_spec q).2.2,
      (processOps_counters (engineAct H) (getPendingOperations q) q).2.2⟩
  · intro H onl st
    by_cases hsy : st.status = SyncStatus.syncing
    · left
      simp [syncDrain, hsy]
    · cases onl with
      | false =>
          left
          simp [syncDrain, hsy]
      | true =>
          right
          exact (syncDrain_run H st hsy).1
  · intro api now s
    by_cases hon : s.online = true
    · right
      have : syncPendingOperations api now s =
          (getPendingOperationsByEntity "user" s.queue).foldl (syncOneRepo api now) s := by
        simp [syncPendingOperations, hon]
      rw [this]
      exact foldSync_queue api now (getPendingOperationsByEntity "user" s.queue) s
    · left
      simp only [Bool.not_eq_true] at hon
      simp [syncPendingOperations, hon]

/-- Witness for C5: in a concrete history of one drain over a queue with
one pending and one failed operation, the failed operation survives the
drain unchanged and is fetched by neither selection. -/
theorem C5_attempts_monotone_and_failed_terminal_witness :
    queueWF qSt1
    ∧ qF ∈ (queueStep (QueueEvent.qEngineDrain HOk) qSt1).q
    ∧ qF ∉ getPendingOperations (queueStep (QueueEvent.qEngineDrain HOk) qSt1).q
    ∧ qF ∉ getPendingOperationsByEntity "user"
        (queueStep (QueueEvent.qEngineDrain HOk) qSt1).q := by
  have hwf : queueWF qSt1 := by decide
  have h := (C5_attempts_monotone_and_failed_terminal qSt1
    [QueueEvent.qEngineDrain HOk] hwf).1 qF (by decide) rfl
    (queueStep (QueueEvent.qEngineDrain HOk) qSt1)
    (by simp [statesAlong])
  exact ⟨hwf, h.1, h.2.1, h.2.2⟩

-- =============================================================================
-- C9: no repository operation ever writes the users:all durable key
-- =============================================================================

lemma userKey_ne_all (id : String) : userKey id ≠ allUsersKey := by
  intro h
  have hd := congrArg String.data h
  rw [userKey, String.data_append] at hd
  have hlist : ('u' :: 's' :: 'e' :: 'r' :: ':' :: id.data) = "users:all".data := hd
  simp at hlist

lemma listKey_ne_all (page pageSize : Nat) (search : Option String) :
    userListKey page pageSize search ≠ allUsersKey := by
  intro h
  have hd := congrArg String.data h
  rw [userListKey, String.data_append] at hd
  have hlist : ('u' :: 's' :: 'e' :: 'r' :: 's' :: ':' :: 'l' :: 'i' :: 's' :: 't' :: ':' ::
      (toString page ++ ":" ++ toString pageSize ++ ":" ++ search.getD "").data) =
      "users:all".data := hd
  simp at hlist

lemma mem_idbPut {α : Type} (x it : CachedItem α) (tbl : List (CachedItem α))
    (hx : x ∈ idbPut it tbl) : x = it ∨ x ∈ tbl := by
  induction tbl with
  | nil =>
      simp [idbPut] at hx
      exact Or.inl hx
  | cons h t ih =>
      by_cases hk : h.key = it.key
      · simp only [idbPut, hk, if_true] at hx
        rcases List.mem_cons.mp hx with hx | hx
        · exact Or.inl hx
        · exact Or.inr (List.mem_cons_of_mem h hx)
      · simp only [idbPut, hk, if_false] at hx
        rcases List.mem_cons.mp hx with hx | hx
        · exact Or.inr (hx ▸ List.mem_cons_self h t)
        · rcases ih hx with hx | hx
          · exact Or.inl hx
          · exact Or.inr (List.mem_cons_of_mem h hx)

lemma mem_idbErase {α : Type} (x : CachedItem α) (k : String)
    (tbl : List (CachedItem α)) (hx : x ∈ idbErase k tbl) : x ∈ tbl := by
  induction tbl with
  | nil => simp [idbErase] at hx
  | cons h t ih =>
      by_cases hk : h.key = k
      · simp only [idbErase, hk, if_true] at hx
        exact List.mem_cons_of_mem h hx
      · simp only [idbErase, hk, if_false] at hx
        rcases List.mem_cons.mp hx with hx | hx
        · exact hx ▸ List.mem_cons_self h t
        · exact List.mem_cons_of_mem h (ih hx)

lemma absent_iff (tbl : List (CachedItem CVal)) :
    idbFind allUsersKey tbl = none ↔ ∀ it ∈ tbl, it.key ≠ allUsersKey := by
  rw [idbFind, List.find?_eq_none]
  constructor
  · intro h it hmem
    have := h it hmem
    simpa using this
  · intro h it hmem
    simpa using h it hmem

lemma absent_put (it : CachedItem CVal) (tbl : List (CachedItem CVal))
    (hk : it.key ≠ allUsersKey) (h : idbFind allUsersKey tbl = none) :
    idbFind allUsersKey (idbPut it tbl) = none := by
  rw [absent_iff] at h ⊢
  intro x hx
  rcases mem_idbPut x it tbl hx with hx | hx
  · rw [hx]; exact hk
  · exact h x hx

lemma absent_erase (k : String) (tbl : List (CachedItem CVal))
    (h : idbFind allUsersKey tbl = none) :
    idbFind allUsersKey (idbErase k tbl) = none := by
  rw [absent_iff] at h ⊢
  intro x hx
  exact h x (mem_idbErase x k tbl hx)

lemma absent_filter (p : CachedItem CVal → Bool) (tbl : List (CachedItem CVal))
    (h : idbFind allUsersKey tbl = none) :
    idbFind allUsersKey (tbl.filter p) = none := by
  rw [absent_iff] at h ⊢
  intro x hx
  exact h x (List.mem_of_mem_filter hx)

lemma absent_getCache (now : Nat) (k : String) (tbl : List (CachedItem CVal))
    (h : idbFind allUsersKey tbl = none) :
    idbFind allUsersKey (idbGetCache now k tbl).2 = none := by
  rcases hf : tbl.find? (fun it => it.key == k) with _ | it
  · simpa [idbGetCache, hf] using h
  · by_cases hexp : it.expiresAt < now
    · simp only [idbGetCache, hf, hexp, if_true]
      exact absent_erase k tbl h
    · simpa [idbGetCache, hf, hexp] using h

lemma absent_setCache (now : Nat) (k : String) (v : CVal) (ttl : Nat)
    (tbl : List (CachedItem CVal)) (hk : k ≠ allUsersKey)
    (h : idbFind allUsersKey tbl = none) :
    idbFind allUsersKey (idbSetCache now k v ttl tbl) = none :=
  absent_put _ tbl hk h

lemma absent_cacheUser (now : Nat) (u : UserM) (s : RepoState)
    (h : idbFind allUsersKey s.idbCache = none) :
    idbFind allUsersKey (cacheUser now u s).idbCache = none := by
  simp only [cacheUser]
  exact absent_setCache now (userKey u.id) (CVal.vUser u) LONG_TTL s.idbCache
    (userKey_ne_all u.id) h

lemma absent_removeFromCache (id : String) (s : RepoState)
    (h : idbFind allUsersKey s.idbCache = none) :
    idbFind allUsersKey (removeFromCache id s).idbCache = none := by
  simp only [removeFromCache, idbDeleteCache]
  exact absent_erase (userKey id) s.idbCache h

lemma absent_getById (api : ApiOracle) (now : Nat) (id : String) (s : RepoState)
    (h : idbFind allUsersKey s.idbCache = none) :
    idbFind allUsersKey ((getById api now id s).2).idbCache = none := by
  rcases hm : findVal (userKey id) s.mem.entries with _ | e
  case some => simpa [getById, memGet, hm] using h
  rcases hf : lruFind (userKey id) s.lru.list with _ | n
  case some =>
    by_cases hexp : n.entry.expiresAt < now
    case neg => simpa [getById, memGet, hm, lruGet, hf, hexp] using h
    case pos =>
      rcases hfi : s.idbCache.find? (fun x => x.key == userKey id) with _ | it
      case none =>
        rcases hon : s.online with _ | _
        case false => simpa [getById, memGet, hm, lruGet, hf, hexp, idbGetCache, hfi,
          hon] using h
        case true =>
          rcases hapi : api.getUser id with msg | dto
          case error => simpa [getById, memGet, hm, lruGet, hf, hexp, idbGetCache, hfi,
            hon, hapi] using h
          case ok =>
            have hpres := absent_cacheUser now (toDomain dto)
              { s with
                  mem := { s.mem with misses := s.mem.misses + 1 },
                  lru :=
                    { s.lru with
                        list := eraseNode (userKey id) s.lru.list,
                        misses := s.lru.misses + 1 },
                  apiLog := s.apiLog ++ [ApiCall.apiGetUser id] } h
            simpa [getById, memGet, hm, lruGet, hf, hexp, idbGetCache, hfi, hon, hapi,
              cacheUser] using hpres
      case some =>
        by_cases hexpi : it.expiresAt < now
        case neg => simpa [getById, memGet, hm, lruGet, hf, hexp, idbGetCache, hfi,
          hexpi] using h
        case pos =>
          have h2 : idbFind allUsersKey (idbErase (userKey id) s.idbCache) = none :=
            absent_erase (userKey id) s.idbCache h
          rcases hon : s.online with _ | _
          case false => simpa [getById, memGet, hm, lruGet, hf, hexp, idbGetCache, hfi,
            hexpi, hon] using h2
          case true =>
            rcases hapi : api.getUser id with msg | dto
            case error => simpa [getById, memGet, hm, lruGet, hf, hexp, idbGetCache,
              hfi, hexpi, hon, hapi] using h2
            case ok =>
              have hpres := absent_cacheUser now (toDomain dto)
                { s with
                    mem := { s.mem with misses := s.mem.misses + 1 },
                    lru :=
                      { s.lru with
                          list := eraseNode (userKey id) s.lru.list,
                          misses := s.lru.misses + 1 },
                    idbCache := idbErase (userKey id) s.idbCache,
                    apiLog := s.apiLog ++ [ApiCall.apiGetUser id] } h2
              simpa [getById, memGet, hm, lruGet, hf, hexp, idbGetCache, hfi, hexpi,
                hon, hapi, cacheUser] using hpres
  case none =>
    rcases hfi : s.idbCache.find? (fun x => x.key == userKey id) with _ | it
    case none =>
      rcases hon : s.online with _ | _
      case false => simpa [getById, memGet, hm, lruGet, hf, idbGetCache, hfi, hon]
        using h
      case true =>
        rcases hapi : api.getUser id with msg | dto
        case error => simpa [getById, memGet, hm, lruGet, hf, idbGetCache, hfi, hon,
          hapi] using h
        case ok =>
          have hpres := absent_cacheUser now (toDomain dto)
            { s with
                mem := { s.mem with misses := s.mem.misses + 1 },
                lru := { s.lru with misses := s.lru.misses + 1 },
                apiLog := s.apiLog ++ [ApiCall.apiGetUser id] } h
          simpa [getById, memGet, hm, lruGet, hf, idbGetCache, hfi, hon, hapi,
            cacheUser] using hpres
    case some =>
      by_cases hexpi : it.expiresAt < now
      case neg => simpa [getById, memGet, hm, lruGet, hf, idbGetCache, hfi, hexpi]
        using h
      case pos =>
        have h2 : idbFind allUsersKey (idbErase (userKey id) s.idbCache) = none :=
          absent_erase (userKey id) s.idbCache h
        rcases hon : s.online with _ | _
        case false => simpa [getById, memGet, hm, lruGet, hf, idbGetCache, hfi, hexpi,
          hon] using h2
        case true =>
          rcases hapi : api.getUser id with msg | dto
          case error => simpa [getById, memGet, hm, lruGet, hf, idbGetCache, hfi,
            hexpi, hon, hapi] using h2
          case ok =>
            have hpres := absent_cacheUser now (toDomain dto)
              { s with
                  mem := { s.mem with misses := s.mem.misses + 1 },
                  lru := { s.lru with misses := s.lru.misses + 1 },
                  idbCache := idbErase (userKey id) s.idbCache,
                  apiLog := s.apiLog ++ [ApiCall.apiGetUser id] } h2
            simpa [getById, memGet, hm, lruGet, hf, idbGetCache, hfi, hexpi, hon,
              hapi, cacheUser] using hpres

lemma absent_getOfflineList (now : Nat) (params : PageParams) (search : Option String)
    (s : RepoState) (h : idbFind allUsersKey s.idbCache = none) :
    idbFind allUsersKey ((getOfflineList now params search s).2).idbCache = none := by
  rcases hg : idbGetCache now allUsersKey s.idbCache with ⟨v, idb'⟩
  have := absent_getCache now allUsersKey s.idbCache h
  rw [hg] at this
  simpa [getOfflineList, hg] using this

lemma absent_foldl_cacheUser (now : Nat) :
    ∀ (us : List UserM) (s : RepoState), idbFind allUsersKey s.idbCache = none →
    idbFind allUsersKey ((us.foldl (fun s u => cacheUser now u s) s)).idbCache = none := by
  intro us
  induction us with
  | nil => intro s h; exact h
  | cons u rest ih =>
      intro s h
      exact ih (cacheUser now u s) (absent_cacheUser now u s h)

lemma absent_getList (api : ApiOracle) (now : Nat) (params : PageParams)
    (search : Option String) (s : RepoState)
    (h : idbFind allUsersKey s.idbCache = none) :
    idbFind allUsersKey ((getList api now params search s).2).idbCache = none := by
  rcases hf : lruFind (userListKey params.page params.pageSize search) s.lru.list
      with _ | n
  case some =>
    by_cases hexp : n.entry.expiresAt < now
    case neg => simpa [getList, lruGet, hf, hexp] using h
    case pos =>
      set s1 : RepoState :=
        { s with lru :=
            { s.lru with
                list := eraseNode (userListKey params.page params.pageSize search)
                  s.lru.list,
                misses := s.lru.misses + 1 } } with hs1
      have h1 : idbFind allUsersKey s1.idbCache = none := h
      rcases hfi : s.idbCache.find?
          (fun x => x.key == userListKey params.page params.pageSize search) with _ | it
      case none =>
        rcases hon : s.online with _ | _
        case false =>
          have := absent_getOfflineList now params search
            { s1 with idbCache := s.idbCache } h
          simpa [getList, lruGet, hf, hexp, idbGetCache, hfi, hon, hs1] using this
        case true =>
          rcases hapi : api.listUsers params.page params.pageSize search with msg | rdto
          case error =>
            have := absent_getOfflineList now params search
              { s1 with
                  errorMsg := some msg, loadingFlag := false,
                  apiLog := s1.apiLog ++
                    [ApiCall.apiGetList params.page params.pageSize search] } h1
            simpa [getList, lruGet, hf, hexp, idbGetCache, hfi, hon, hapi, hs1]
              using this
          case ok =>
            have hset : idbFind allUsersKey (idbSetCache now
                (userListKey params.page params.pageSize search)
                (CVal.vPage (toPaginatedDomain rdto)) LIST_TTL s1.idbCache) = none :=
              absent_setCache now _ _ LIST_TTL s1.idbCache
                (listKey_ne_all params.page params.pageSize search) h1
            have hfold := absent_foldl_cacheUser now (toPaginatedDomain rdto).data
              { s1 with
                  lru := lruSet now (userListKey params.page params.pageSize search)
                    (CVal.vPage (toPaginatedDomain rdto)) (some LIST_TTL) s1.lru,
                  idbCache := idbSetCache now
                    (userListKey params.page params.pageSize search)
                    (CVal.vPage (toPaginatedDomain rdto)) LIST_TTL s1.idbCache,
                  apiLog := s1.apiLog ++
                    [ApiCall.apiGetList params.page params.pageSize search] } hset
            simpa [getList, lruGet, hf, hexp, idbGetCache, hfi, hon, hapi, hs1]
              using hfold
      case some =>
        by_cases hexpi : it.expiresAt < now
        case neg => simpa [getList, lruGet, hf, hexp, idbGetCache, hfi, hexpi] using h
        case pos =>
          have h2 : idbFind allUsersKey (idbErase
              (userListKey params.page params.pageSize search) s.idbCache) = none :=
            absent_erase _ s.idbCache h
          rcases hon : s.online with _ | _
          case false =>
            have := absent_getOfflineList now params search
              { s1 with
                  idbCache :=
                    idbErase (userListKey params.page params.pageSize search)
                      s.idbCache } h2
            simpa [getList, lruGet, hf, hexp, idbGetCache, hfi, hexpi, hon, hs1]
              using this
          case true =>
            rcases hapi : api.listUsers params.page params.pageSize search
                with msg | rdto
            case error =>
              have := absent_getOfflineList now params search
                { s1 with
                    idbCache :=
                      idbErase (userListKey params.page params.pageSize search)
                        s.idbCache,
                    errorMsg := some msg, loadingFlag := false,
                    apiLog := s1.apiLog ++
                      [ApiCall.apiGetList params.page params.pageSize search] } h2
              simpa [getList, lruGet, hf, hexp, idbGetCache, hfi, hexpi, hon, hapi,
                hs1] using this
            case ok =>
              have hset : idbFind allUsersKey (idbSetCache now
                  (userListKey params.page params.pageSize search)
                  (CVal.vPage (toPaginatedDomain rdto)) LIST_TTL
                  (idbErase (userListKey params.page params.pageSize search)
                    s.idbCache)) = none :=
                absent_setCache now _ _ LIST_TTL _
                  (listKey_ne_all params.page params.pageSize search) h2
              have hfold := absent_foldl_cacheUser now (toPaginatedDomain rdto).data
                { s1 with
                    lru := lruSet now (userListKey params.page params.pageSize search)
                      (CVal.vPage (toPaginatedDomain rdto)) (some LIST_TTL) s1.lru,
                    idbCache := idbSetCache now
                      (userListKey params.page params.pageSize search)
                      (CVal.vPage (toPaginatedDomain rdto)) LIST_TTL
                      (idbErase (userListKey params.page params.pageSize search)
                        s.idbCache),
                    apiLog := s1.apiLog ++
                      [ApiCall.apiGetList params.page params.pageSize search] } hset
              simpa [getList, lruGet, hf, hexp, idbGetCache, hfi, hexpi, hon, hapi,
                hs1] using hfold
  case none =>
    set s1 : RepoState := { s with lru := { s.lru with misses := s.lru.misses + 1 } }
      with hs1
    have h1 : idbFind allUsersKey s1.idbCache = none := h
    rcases hfi : s.idbCache.find?
        (fun x => x.key == userListKey params.page params.pageSize search) with _ | it
    case none =>
      rcases hon : s.online with _ | _
      case false =>
        have := absent_getOfflineList now params search s1 h1
        simpa [getList, lruGet, hf, idbGetCache, hfi, hon, hs1] using this
      case true =>
        rcases hapi : api.listUsers params.page params.pageSize search with msg | rdto
        case error =>
          have := absent_getOfflineList now params search
            { s1 with
                errorMsg := some msg, loadingFlag := false,
                apiLog := s1.apiLog ++
                  [ApiCall.apiGetList params.page params.pageSize search] } h1
          simpa [getList, lruGet, hf, idbGetCache, hfi, hon, hapi, hs1] using this
        case ok =>
          have hset : idbFind allUsersKey (idbSetCache now
              (userListKey params.page params.pageSize search)
              (CVal.vPage (toPaginatedDomain rdto)) LIST_TTL s1.idbCache) = none :=
            absent_setCache now _ _ LIST_TTL s1.idbCache
              (listKey_ne_all params.page params.pageSize search) h1
          have hfold := absent_foldl_cacheUser now (toPaginatedDomain rdto).data
            { s1 with
                lru := lruSet now (userListKey params.page params.pageSize search)
                  (CVal.vPage (toPaginatedDomain rdto)) (some LIST_TTL) s1.lru,
                idbCache := idbSetCache now
                  (userListKey params.page params.pageSize search)
                  (CVal.vPage (toPaginatedDomain rdto)) LIST_TTL s1.idbCache,
                apiLog := s1.apiLog ++
                  [ApiCall.apiGetList params.page params.pageSize search] } hset
          simpa [getList, lruGet, hf, idbGetCache, hfi, hon, hapi, hs1] using hfold
    case some =>
      by_cases hexpi : it.expiresAt < now
      case neg => simpa [getList, lruGet, hf, idbGetCache, hfi, hexpi] using h
      case pos =>
        have h2 : idbFind allUsersKey (idbErase
            (userListKey params.page params.pageSize search) s.idbCache) = none :=
          absent_erase _ s.idbCache h
        rcases hon : s.online with _ | _
        case false =>
          have := absent_getOfflineList now params search
            { s1 with
                idbCache :=
                  idbErase (userListKey params.page params.pageSize search)
                    s.idbCache } h2
          simpa [getList, lruGet, hf, idbGetCache, hfi, hexpi, hon, hs1] using this
        case true =>
          rcases hapi : api.listUsers params.page params.pageSize search with msg | rdto
          case error =>
            have := absent_getOfflineList now params search
              { s1 with
                  idbCache := idbErase
                    (userListKey params.page params.pageSize search) s.idbCache,
                  errorMsg := some msg, loadingFlag := false,
                  apiLog := s1.apiLog ++
                    [ApiCall.apiGetList params.page params.pageSize search] } h2
            simpa [getList, lruGet, hf, idbGetCache, hfi, hexpi, hon, hapi, hs1]
              using this
          case ok =>
            have hset : idbFind allUsersKey (idbSetCache now
                (userListKey params.page params.pageSize search)
                (CVal.vPage (toPaginatedDomain rdto)) LIST_TTL
                (idbErase (userListKey params.page params.pageSize search)
                  s.idbCache)) = none :=
              absent_setCache now _ _ LIST_TTL _
                (listKey_ne_all params.page params.pageSize search) h2
            have hfold := absent_foldl_cacheUser now (toPaginatedDomain rdto).data
              { s1 with
                  lru := lruSet now (userListKey params.page params.pageSize search)
                    (CVal.vPage (toPaginatedDomain rdto)) (some LIST_TTL) s1.lru,
                  idbCache := idbSetCache now
                    (userListKey params.page params.pageSize search)
                    (CVal.vPage (toPaginatedDomain rdto)) LIST_TTL
                    (idbErase (userListKey params.page params.pageSize search)
                      s.idbCache),
                  apiLog := s1.apiLog ++
                    [ApiCall.apiGetList params.page params.pageSize search] } hset
            simpa [getList, lruGet, hf, idbGetCache, hfi, hexpi, hon, hapi, hs1]
              using hfold

lemma absent_createOffline (now : Nat) (uuid : String) (dto : CreateDto) (s : RepoState)
    (h : idbFind allUsersKey s.idbCache = none) :
    idbFind allUsersKey ((createOffline now uuid dto s).2).idbCache = none := by
  have := absent_cacheUser now (createOfflineUser now uuid dto) s h
  simpa [createOffline, addPendingOp] using this

lemma absent_createUser (api : ApiOracle) (now : Nat) (uuid : String) (dto : CreateDto)
    (s : RepoState) (h : idbFind allUsersKey s.idbCache = none) :
    idbFind allUsersKey ((createUser api now uuid dto s).2).idbCache = none := by
  rcases hon : s.online with _ | _
  case false =>
    have := absent_createOffline now uuid dto s h
    simpa [createUser, hon] using this
  case true =>
    rcases hapi : api.postUser (toCreateApiDto dto) with msg | rdto
    case error =>
      by_cases hnet : strIncludes msg "network"
      · have := absent_createOffline now uuid dto
          { s with apiLog := s.apiLog ++ [ApiCall.apiPostUser (toCreateApiDto dto)] } h
        simpa [createUser, hon, hapi, hnet] using this
      · simpa [createUser, hon, hapi, hnet] using h
    case ok =>
      have := absent_cacheUser now (toDomain rdto)
        { s with apiLog := s.apiLog ++ [ApiCall.apiPostUser (toCreateApiDto dto)] } h
      simpa [createUser, hon, hapi, invalidateListCache] using this

lemma absent_updateOffline (now : Nat) (existing : UserM) (dto : UpdateDto)
    (s : RepoState) (h : idbFind allUsersKey s.idbCache = none) :
    idbFind allUsersKey ((updateOffline now existing dto s).2).idbCache = none := by
  have := absent_cacheUser now (applyUpdate now existing dto) s h
  simpa [updateOffline, addPendingOp] using this

lemma absent_updateUser (api : ApiOracle) (now : Nat) (id : String) (dto : UpdateDto)
    (s : RepoState) (h : idbFind allUsersKey s.idbCache = none) :
    idbFind allUsersKey ((updateUser api now id dto s).2).idbCache = none := by
  rcases hg : getById api now id s with ⟨r, s1⟩
  have h1 : idbFind allUsersKey s1.idbCache = none := by
    have := absent_getById api now id s h
    rw [hg] at this
    exact this
  rcases r with e | u
  · simpa [updateUser, hg] using h1
  rcases u with _ | existing
  · simpa [updateUser, hg] using h1
  rcases hon : s1.online with _ | _
  case false =>
    have := absent_updateOffline now existing dto s1 h1
    simpa [updateUser, hg, hon] using this
  case true =>
    rcases hapi : api.putUser id (toUpdateApiDto dto) with msg | rdto
    case error =>
      by_cases hnet : strIncludes msg "network"
      · have := absent_updateOffline now existing dto
          { s1 with apiLog := s1.apiLog ++ [ApiCall.apiPutUser id (toUpdateApiDto dto)] }
          h1
        simpa [updateUser, hg, hon, hapi, hnet] using this
      · simpa [updateUser, hg, hon, hapi, hnet] using h1
    case ok =>
      have := absent_cacheUser now (toDomain rdto)
        { s1 with apiLog := s1.apiLog ++ [ApiCall.apiPutUser id (toUpdateApiDto dto)] }
        h1
      simpa [updateUser, hg, hon, hapi, invalidateListCache] using this

lemma absent_deleteOffline (now : Nat) (id : String) (s : RepoState)
    (h : idbFind allUsersKey s.idbCache = none) :
    idbFind allUsersKey ((deleteOffline now id s)).idbCache = none := by
  have := absent_removeFromCache id s h
  simpa [deleteOffline, addPendingOp] using this

lemma absent_deleteUser (api : ApiOracle) (now : Nat) (id : String) (s : RepoState)
    (h : idbFind allUsersKey s.idbCache = none) :
    idbFind allUsersKey ((deleteUser api now id s).2).idbCache = none := by
  rcases hg : getById api now id s with ⟨r, s1⟩
  have h1 : idbFind allUsersKey s1.idbCache = none := by
    have := absent_getById api now id s h
    rw [hg] at this
    exact this
  rcases r with e | u
  · simpa [deleteUser, hg] using h1
  rcases u with _ | existing
  · simpa [deleteUser, hg] using h1
  rcases hon : s1.online with _ | _
  case false =>
    have := absent_deleteOffline now id s1 h1
    simpa [deleteUser, hg, hon] using this
  case true =>
    rcases hapi : api.delUser id with msg | v
    case error =>
      by_cases hnet : strIncludes msg "network"
      · have := absent_deleteOffline now id
          { s1 with apiLog := s1.apiLog ++ [ApiCall.apiDelUser id] } h1
        simpa [deleteUser, hg, hon, hapi, hnet] using this
      · simpa [deleteUser, hg, hon, hapi, hnet] using h1
    case ok =>
      have := absent_removeFromCache id
        { s1 with apiLog := s1.apiLog ++ [ApiCall.apiDelUser id] } h1
      simpa [deleteUser, hg, hon, hapi, invalidateListCache] using this

lemma absent_syncOneRepo (api : ApiOracle) (now : Nat) (s : RepoState)
    (op : PendingOp PayloadM) (h : idbFind allUsersKey s.idbCache = none) :
    idbFind allUsersKey ((syncOneRepo api now s op)).idbCache = none := by
  rcases ht : op.type with _ | _ | _
  · rcases hres : api.postUser (toCreateApiDto op.payload.asCreateD) with msg | rdto
    · simpa [syncOneRepo, ht, hres] using h
    · have hrm := absent_removeFromCache op.entityId
        { s with
            queue := updateOp op.id procPatch s.queue,
            apiLog := s.apiLog ++
              [ApiCall.apiPostUser (toCreateApiDto op.payload.asCreateD)] } h
      have := absent_cacheUser now (toDomain rdto)
        (removeFromCache op.entityId
          { s with
              queue := updateOp op.id procPatch s.queue,
              apiLog := s.apiLog ++
                [ApiCall.apiPostUser (toCreateApiDto op.payload.asCreateD)] }) hrm
      simpa [syncOneRepo, ht, hres] using this
  · rcases hres : api.putUser op.entityId (toUpdateApiDto op.payload.asUpdateD)
        with msg | rdto
    · simpa [syncOneRepo, ht, hres] using h
    · have := absent_cacheUser now (toDomain rdto)
        { s with
            queue := updateOp op.id procPatch s.queue,
            apiLog := s.apiLog ++
              [ApiCall.apiPutUser op.entityId (toUpdateApiDto op.payload.asUpdateD)] } h
      simpa [syncOneRepo, ht, hres] using this
  · rcases hres : api.delUser op.entityId with msg | v
    · simpa [syncOneRepo, ht, hres] using h
    · simpa [syncOneRepo, ht, hres] using h

lemma absent_syncPendingOperations (api : ApiOracle) (now : Nat) (s : RepoState)
    (h : idbFind allUsersKey s.idbCache = none) :
    idbFind allUsersKey ((syncPendingOperations api now s)).idbCache = none := by
  rcases hon : s.online with _ | _
  case false => simpa [syncPendingOperations, hon] using h
  case true =>
    have haux : ∀ (ops : List (PendingOp PayloadM)) (s' : RepoState),
        idbFind allUsersKey s'.idbCache = none →
        idbFind allUsersKey ((ops.foldl (syncOneRepo api now) s')).idbCache = none := by
      intro ops
      induction ops with
      | nil => intro s' h'; exact h'
      | cons op rest ih =>
          intro s' h'
          exact ih (syncOneRepo api now s' op) (absent_syncOneRepo api now s' op h')
    have := haux (getPendingOperationsByEntity "user" s.queue) s h
    simpa [syncPendingOperations, hon] using this

lemma absent_clearCache (s : RepoState) (h : idbFind allUsersKey s.idbCache = none) :
    idbFind allUsersKey ((clearCache s)).idbCache = none := by
  simp only [clearCache, idbClearCachePre]
  exact absent_filter _ s.idbCache h

lemma absent_repoStep (op : RepoOp) (s : RepoState)
    (h : idbFind allUsersKey s.idbCache = none) :
    idbFind allUsersKey ((repoStep op s)).idbCache = none := by
  cases op with
  | rGetById api now id => exact absent_getById api now id s h
  | rGetList api now params search => exact absent_getList api now params search s h
  | rCreate api now uuid dto => exact absent_createUser api now uuid dto s h
  | rUpdate api now id dto => exact absent_updateUser api now id dto s h
  | rDelete api now id => exact absent_deleteUser api now id s h
  | rSync api now => exact absent_syncPendingOperations api now s h
  | rClear => exact absent_clearCache s h

/-- C9 (claim): no repository operation ever writes the users:all durable
key that the offline list fallback reads; hence from a store without
that key, after any sequence of repository operations the key is still
absent, and every offline/fallback list read returns an empty page with
total 0 and totalPages 0. -/
theorem C9_users_all_never_written (s0 : RepoState) (ops : List RepoOp)
    (h0 : idbFind allUsersKey s0.idbCache = none) :
    idbFind allUsersKey ((repoRun s0 ops)).idbCache = none
    ∧ (∀ (now : Nat) (params : PageParams) (search : Option String) (s : RepoState),
        idbFind allUsersKey s.idbCache = none → 1 ≤ params.pageSize →
        (getOfflineList now params search s).1 =
          { data := [], page := params.page, pageSize := params.pageSize,
            total := 0, totalPages := 0 }) := by
  constructor
  · induction ops generalizing s0 with
    | nil => exact h0
    | cons op rest ih => exact ih (repoStep op s0) (absent_repoStep op s0 h0)
  · intro now params search s habs hps
    have hget : idbGetCache now allUsersKey s.idbCache = (none, s.idbCache) := by
      rw [idbGetCache]
      rw [show s.idbCache.find? (fun it => it.key == allUsersKey) = none from habs]
    have hceil : ceilDiv 0 params.pageSize = 0 := by
      rw [ceilDiv]
      exact Nat.div_eq_of_lt (by omega)
    rcases hsearch : search with _ | str
    · simp [getOfflineList, hget, hceil]
    · by_cases hstr : str = ""
      · simp [getOfflineList, hget, hceil, hstr]
      · simp [getOfflineList, hget, hceil, hstr]

/-- Witness for C9 on a concrete history: an offline create followed by a
read leaves the users:all key absent, and the offline list fallback at
page 2 with page size 6 and search jane returns the empty page. -/
theorem C9_users_all_never_written_witness :
    idbFind allUsersKey
      ((repoRun offRepo [RepoOp.rCreate apiFailNet 3 "u9" dto0,
        RepoOp.rGetById apiFailNet 4 "zz"])).idbCache = none
    ∧ (getOfflineList 9 { page := 2, pageSize := 6 } (some "jane")
        (repoRun offRepo [RepoOp.rCreate apiFailNet 3 "u9" dto0])).1 =
        { data := [], page := 2, pageSize := 6, total := 0, totalPages := 0 } := by
  have h := C9_users_all_never_written offRepo
    [RepoOp.rCreate apiFailNet 3 "u9" dto0, RepoOp.rGetById apiFailNet 4 "zz"] rfl
  refine ⟨h.1, ?_⟩
  have h2 := C9_users_all_never_written offRepo
    [RepoOp.rCreate apiFailNet 3 "u9" dto0] rfl
  exact h2.2 9 { page := 2, pageSize := 6 } (some "jane")
    (repoRun offRepo [RepoOp.rCreate apiFailNet 3 "u9" dto0]) h2.1 (by decide)

end Arcana

